import Mathlib

/-!
# HID-KB firmware: serial frame decoder, command dispatcher and hotkey runner

A shallow embedding of `src/main.cpp`.  The globals of the sketch
(`incomingData`, `dataLength`, `dataReady`, `currentTask`, the function-static
cursor `index` of `processSerialData`) are the fields of `State`; the
external AT24C256 is a byte map `eeprom`; everything the firmware does to the
outside world (serial text, framed responses, HID calls, EEPROM transactions)
is appended to `trace` in program order.

Machine integers: `byte` values are naturals below 256, `int` is the 16-bit
two's complement `int` of the AVR boards the HID-Project library targets,
`unsigned long` is 32 bits wide.
-/

namespace HidKb

/-! ## Constants (`#define`s of the sketch) -/

def HOTKEY_COUNT : Nat := 32
def HOTKEY_SIZE : Nat := 8
def EEPROM_START_ADDRESS : Nat := 0

def CMD_SET_HOTKEY : Nat := 0x01
def CMD_RUN_HOTKEY : Nat := 0x02
def CMD_LIST_HOTKEYS : Nat := 0x03
def CMD_RESPONSE : Nat := 0x04

/-- Capacity of the receive buffer, `byte incomingData[128]`. -/
def INCOMING_CAPACITY : Nat := 128

/-! ## Observable effects -/

/-- The three HID objects of HID-Project used by the sketch. -/
inductive Channel where
  /-- `Keyboard`, selected by `keyType == 1`. -/
  | keyboard
  /-- `Consumer`, selected by `keyType == 2`. -/
  | consumer
  /-- `System`, selected by `keyType == 3`. -/
  | system
  deriving DecidableEq

/-- The texts the sketch sends to the host, one constructor per string literal. -/
inductive Msg where
  /-- Text 校驗碼錯誤 (checksum error), `processSerialData`. -/
  | checksumError
  /-- Text 未知命令 (unknown command), `executeCommand`. -/
  | unknownCommand
  /-- Text 資料長度不足 (payload too short), `setHotkey` and `runHotkey`. -/
  | tooShort
  /-- Text 索引超出範圍 (index out of range), `setHotkey` and `runHotkey`. -/
  | indexOutOfRange
  /-- Text 無效的按鍵類型 (invalid key type), `setHotkey`. -/
  | invalidKeyType
  /-- Text 按鍵數量不正確 (wrong key count), `setHotkey`. -/
  | badKeyCount
  /-- Text 延遲時間不正確 (wrong delay), `setHotkey`. -/
  | badDelay
  /-- Text 設定熱鍵成功 (hotkey stored), `setHotkey`. -/
  | setOk
  /-- Text 已有熱鍵正在發送，請稍後再試 (a hotkey is already being sent), `runHotkey`. -/
  | taskActive
  /-- Text 未知的按鍵類型 (unknown key type), `runHotkey`. -/
  | unknownKeyType
  /-- Text 開始發送熱鍵，索引： followed by the printed index, `runHotkey`. -/
  | started (index : Int)
  /-- Text 熱鍵發送完成 (hotkey finished), `loop`. -/
  | done
  /-- Text 熱鍵列表功能未實現 (listing not implemented), `listHotkeys`. -/
  | notImplemented
  deriving DecidableEq

/-- One externally visible action of the firmware. -/
inductive Event where
  /-- Plain text line, `Serial.println` (or `Serial.print` + `Serial.println`). -/
  | println (m : Msg)
  /-- Framed response, `sendResponse(message)`. -/
  | response (m : Msg)
  /-- HID call `X.press(code)` on channel `X`. -/
  | press (ch : Channel) (code : Nat)
  /-- HID call `X.releaseAll()` on channel `X`. -/
  | releaseAll (ch : Channel)
  /-- I2C write transaction of `writeEEPROM`: start address and data bytes. -/
  | eepromWrite (address : Nat) (bytes : List Nat)
  /-- I2C read transaction of `readEEPROM`: start address and byte count. -/
  | eepromRead (address : Nat) (length : Nat)
  deriving DecidableEq

/-! ## Program state -/

/-- Mirror of `struct HotkeyTask`.  `keyCodes` always has the three entries of
`byte keyCodes[3]`. -/
structure HotkeyTask where
  active : Bool
  startTime : Nat
  delayTime : Int
  keyType : Nat
  keyCount : Nat
  keyCodes : List Nat
  deriving DecidableEq

/-- The globals of the sketch, the EEPROM contents and the effect trace. -/
structure State where
  /-- The `static int index` of `processSerialData` (the write cursor). -/
  index : Nat
  /-- The receive buffer `incomingData`, as a map from array index to byte.
  Indices from `INCOMING_CAPACITY` on lie outside the C array. -/
  incomingData : Nat → Nat
  dataLength : Nat
  dataReady : Bool
  currentTask : HotkeyTask
  /-- Contents of the external EEPROM, address to byte. -/
  eeprom : Nat → Nat
  /-- Everything done to the outside world so far, oldest first. -/
  trace : List Event

/-- The state after `setup`: globals as initialised in the sketch, an
arbitrary EEPROM content, nothing emitted yet. -/
def initState (eeprom : Nat → Nat) : State :=
  { index := 0
    incomingData := fun _ => 0
    dataLength := 0
    dataReady := false
    currentTask :=
      { active := false, startTime := 0, delayTime := 0, keyType := 0, keyCount := 0,
        keyCodes := [0, 0, 0] }
    eeprom := eeprom
    trace := [] }

/-- Append one event to the trace. -/
def emit (s : State) (e : Event) : State :=
  { s with trace := s.trace ++ [e] }

/-! ## Machine integers -/

/-- Value of a bit pattern stored into a 16-bit `int`. -/
def toInt16 (n : Nat) : Int :=
  if n % 65536 < 32768 then ((n % 65536 : Nat) : Int) else ((n % 65536 : Nat) : Int) - 65536

/-- Conversion of an `int` to `unsigned long` (32 bits). -/
def toULong (v : Int) : Nat :=
  (v % 4294967296).toNat

/-- Subtraction `a - b` of two `unsigned long` values. -/
def subULong (a b : Nat) : Nat :=
  (a % 4294967296 + 4294967296 - b % 4294967296) % 4294967296

/-! ## Frame decoder -/

/-- Array store `buf[i] = v`. -/
def setByte (buf : Nat → Nat) (i v : Nat) : Nat → Nat :=
  fun j => if j = i then v else buf j

/-- The loop `for (i = 0; i < n; i++) checksum += incomingData[i];` on a
`byte checksum` starting at 0. -/
def checksumLoop (buf : Nat → Nat) : Nat → Nat
  | 0 => 0
  | n + 1 => (checksumLoop buf n + buf n) % 256

/-- Function `processSerialData(byte incomingByte)`. The store
`incomingData[index++] = incomingByte` is exact while `index` is below
`INCOMING_CAPACITY`. At a larger index the source stores behind the array, on
whatever object the linker placed there; here such a store only extends the
map `incomingData` and touches no other field, so statements about the other
globals are statements about the source only for runs whose write indices
(`writeIndices`) all stay below `INCOMING_CAPACITY`. -/
def processSerialData (s : State) (incomingByte : Nat) : State :=
  let buf := setByte s.incomingData s.index (incomingByte % 256)
  let index := s.index + 1
  if 2 ≤ index then
    let dataLength := buf 1
    if index = dataLength + 3 then
      let checksum := checksumLoop buf (index - 1)
      if checksum = buf (index - 1) then
        { s with incomingData := buf, dataLength := dataLength, dataReady := true, index := 0 }
      else
        { s with incomingData := buf, dataLength := dataLength, index := 0,
                 trace := s.trace ++ [Event.println Msg.checksumError] }
    else
      { s with incomingData := buf, dataLength := dataLength, index := index }
  else
    { s with incomingData := buf, index := index }

/-- Feed a byte sequence to the decoder, one call of `processSerialData` per byte. -/
def feed (s : State) (bytes : List Nat) : State :=
  bytes.foldl processSerialData s

/-- The array indices written by `incomingData[index++] = incomingByte` while
the bytes are fed, in order. -/
def writeIndices (s : State) : List Nat → List Nat
  | [] => []
  | b :: bs => s.index :: writeIndices (processSerialData s b) bs

/-- A request frame as the host encodes it: command, length, payload, and the
sum of all preceding bytes modulo 256. -/
def encodeFrame (command : Nat) (payload : List Nat) : List Nat :=
  (command :: payload.length :: payload) ++ [(command + payload.length + payload.sum) % 256]

/-! ## EEPROM access -/

/-- Function `writeEEPROM(address, data, length)` on an EEPROM that takes the
page write: byte `i` of `data` lands at `address + i`. -/
def writeEEPROM (mem : Nat → Nat) (address : Nat) (data : List Nat) (length : Nat) : Nat → Nat :=
  fun a => if address ≤ a ∧ a < address + length then data.getD (a - address) 0 else mem a

/-- Function `readEEPROM(address, data, length)`: the local array filled by it,
`data[i]` for `i < length`. -/
def readEEPROM (mem : Nat → Nat) (address : Nat) (length : Nat) : Nat → Nat :=
  fun i => if i < length then mem (address + i) else 0

/-- Function `sendResponse(message)`: one framed response on the serial link. -/
def sendResponse (s : State) (m : Msg) : State :=
  emit s (Event.response m)

/-! ## Commands -/

/-- Function `setHotkey(data, length)`.  `data` is the pointer `&incomingData[2]`,
`stackByte` the indeterminate content of the never assigned `hotkeyData[7]`. -/
def setHotkey (s : State) (data : Nat → Nat) (length : Nat) (stackByte : Nat) : State :=
  if length < 7 then emit s (Event.println Msg.tooShort)
  else
    let index : Int := (data 0 : Nat)
    let keyType : Int := (data 1 : Nat)
    let keyCount : Int := (data 2 : Nat)
    let keyCodes : List Nat := [data 3, data 4, data 5]
    let delayTime : Int := toInt16 ((data 6 <<< 8) ||| data 7)
    if index < 0 ∨ index ≥ HOTKEY_COUNT then emit s (Event.println Msg.indexOutOfRange)
    else if keyType < 1 ∨ keyType > 3 then emit s (Event.println Msg.invalidKeyType)
    else if keyCount < 1 ∨ keyCount > 3 then emit s (Event.println Msg.badKeyCount)
    else if delayTime < 0 ∨ delayTime > 5000 then emit s (Event.println Msg.badDelay)
    else
      let hotkeyData : List Nat :=
        [(keyCount % 256).toNat, (keyType % 256).toNat,
         keyCodes.getD 0 0, keyCodes.getD 1 0, keyCodes.getD 2 0,
         data 6, data 7, stackByte]
      let eepromAddress : Nat := (EEPROM_START_ADDRESS + index * HOTKEY_SIZE).toNat
      let s1 : State :=
        { s with eeprom := writeEEPROM s.eeprom eepromAddress hotkeyData HOTKEY_SIZE,
                 trace := s.trace ++ [Event.eepromWrite eepromAddress (hotkeyData.take HOTKEY_SIZE)] }
      sendResponse s1 Msg.setOk

/-- The loop `for (i = 0; i < keyCount; i++) X.press(currentTask.keyCodes[i]);`.
An index of 3 or more lies outside `keyCodes[3]`: the source reads the bytes
behind the array there, which this model does not know and replaces by 0. The
codes of the events are those of the source for `keyCount <= 3` only; their
number and channel are those of the source for every `keyCount`. -/
def pressLoop (ch : Channel) (keyCodes : List Nat) (keyCount : Nat) : List Event :=
  (List.range keyCount).map (fun i => Event.press ch (keyCodes.getD i 0))

/-- Function `runHotkey(data, length)`; `now` is the value `millis()` returns. -/
def runHotkey (s : State) (data : Nat → Nat) (length : Nat) (now : Nat) : State :=
  if s.currentTask.active then emit s (Event.println Msg.taskActive)
  else if length < 1 then emit s (Event.println Msg.tooShort)
  else
    let index : Int := (data 0 : Nat)
    if index < 0 ∨ index ≥ HOTKEY_COUNT then emit s (Event.println Msg.indexOutOfRange)
    else
      let eepromAddress : Nat := (EEPROM_START_ADDRESS + index * HOTKEY_SIZE).toNat
      let hotkeyData := readEEPROM s.eeprom eepromAddress HOTKEY_SIZE
      let s1 := emit s (Event.eepromRead eepromAddress HOTKEY_SIZE)
      let keyCount := hotkeyData 0
      let keyType := hotkeyData 1
      let keyCodes : Nat → Nat := fun i => hotkeyData (2 + i)
      let delayTime : Int := toInt16 ((hotkeyData 5 <<< 8) ||| hotkeyData 6)
      let task : HotkeyTask :=
        { active := true, startTime := now % 4294967296, delayTime := delayTime,
          keyType := keyType, keyCount := keyCount,
          keyCodes := [keyCodes 0, keyCodes 1, keyCodes 2] }
      let started (ch : Channel) : State :=
        { s1 with currentTask := task,
                  trace := s1.trace ++ pressLoop ch task.keyCodes keyCount
                    ++ [Event.println (Msg.started index)] }
      match keyType with
      | 1 => started Channel.keyboard
      | 2 => started Channel.consumer
      | 3 => started Channel.system
      | _ =>
        { s1 with currentTask := { task with active := false },
                  trace := s1.trace ++ [Event.println Msg.unknownKeyType] }

/-- Function `listHotkeys()`. -/
def listHotkeys (s : State) : State :=
  sendResponse s Msg.notImplemented

/-- The command byte `executeCommand` reads, `incomingData[0]`. -/
def frameCommand (s : State) : Nat := s.incomingData 0

/-- The length byte `executeCommand` reads, `incomingData[1]`. -/
def frameLength (s : State) : Nat := s.incomingData 1

/-- The pointer `data = &incomingData[2]` of `executeCommand`. -/
def frameData (s : State) : Nat → Nat := fun i => s.incomingData (i + 2)

/-- Function `executeCommand()`; `now` and `stackByte` as in `runHotkey` and
`setHotkey`. -/
def executeCommand (s : State) (now stackByte : Nat) : State :=
  let command := frameCommand s
  let length := frameLength s
  let data := frameData s
  if command = CMD_SET_HOTKEY then setHotkey s data length stackByte
  else if command = CMD_RUN_HOTKEY then runHotkey s data length now
  else if command = CMD_LIST_HOTKEYS then listHotkeys s
  else emit s (Event.println Msg.unknownCommand)

/-! ## Main loop -/

/-- The task check at the end of `loop` (the runner poll); `now` is the value
`millis()` returns there. -/
def pollTask (s : State) (now : Nat) : State :=
  if s.currentTask.active then
    if subULong now s.currentTask.startTime ≥ toULong s.currentTask.delayTime then
      let s1 : State :=
        match s.currentTask.keyType with
        | 1 => emit s (Event.releaseAll Channel.keyboard)
        | 2 => emit s (Event.releaseAll Channel.consumer)
        | 3 => emit s (Event.releaseAll Channel.system)
        | _ => s
      { s1 with currentTask := { s1.currentTask with active := false },
                trace := s1.trace ++ [Event.println Msg.done] }
    else s
  else s

/-- What the environment supplies during one iteration of `loop`. -/
structure Tick where
  /-- The byte `Serial.read()` returns when `Serial.available() > 0`. -/
  serial : Option Nat
  /-- The value of `millis()` inside `runHotkey`, when it is reached. -/
  millisRun : Nat
  /-- The value of `millis()` in the task check at the end of `loop`. -/
  millisPoll : Nat
  /-- The indeterminate `hotkeyData[7]` of `setHotkey`, when it is reached. -/
  stackByte : Nat

/-- Function `loop()`: one iteration. -/
def loop (s : State) (t : Tick) : State :=
  let s1 : State :=
    match t.serial with
    | some incomingByte => processSerialData s incomingByte
    | none => s
  let s2 : State :=
    if s1.dataReady then executeCommand { s1 with dataReady := false } t.millisRun t.stackByte
    else s1
  pollTask s2 t.millisPoll

/-- Run `loop` once per tick of the list. -/
def runTicks (s : State) (ticks : List Tick) : State :=
  ticks.foldl loop s

/-! ## Auxiliary states and inputs used by the statements -/

/-- The buffer after the first `k` bytes of `f` were stored from index 0. -/
def loadBuf (buf : Nat → Nat) (f : List Nat) (k : Nat) : Nat → Nat :=
  fun j => if j < k then f.getD j 0 % 256 else buf j

/-- The state while a frame is being assembled: `a` stored from index 0, no
frame completed yet. -/
def assemblingState (s : State) (a : List Nat) : State :=
  { s with index := a.length, incomingData := loadBuf s.incomingData a a.length,
           dataLength := if 2 ≤ a.length then a.getD 1 0 % 256 else s.dataLength }

/-- The state right after the byte that completes a frame: cursor back at 0,
`dataReady` raised when `ok`, the checksum error printed otherwise. -/
def completedState (s : State) (f : List Nat) (ok : Bool) : State :=
  { s with index := 0, incomingData := loadBuf s.incomingData f f.length,
           dataLength := f.getD 1 0 % 256,
           dataReady := if ok then true else s.dataReady,
           trace := if ok then s.trace else s.trace ++ [Event.println Msg.checksumError] }

/-- Consecutive iterations of `loop`, the one numbered `n + j` receiving byte
`j` of `bytes`; `clk` supplies the clock readings and stack content of every
iteration. -/
def byteTicks (clk : Nat → Tick) : Nat → List Nat → List Tick
  | _, [] => []
  | n, b :: bs => { clk n with serial := some b } :: byteTicks clk (n + 1) bs

/-- The `k` consecutive iterations of `loop` numbered from `n` on, with no
byte available on the serial link. -/
def quietTicks (clk : Nat → Tick) : Nat → Nat → List Tick
  | _, 0 => []
  | n, k + 1 => { clk n with serial := none } :: quietTicks clk (n + 1) k

/-- End-to-end scenario, state once the SET_HOTKEY frame was dispatched: the
frame is in the buffer, slot 0 holds the record (`pad` in its unused last
byte), the write and the success response are in the trace. -/
def scenarioStored (mem : Nat → Nat) (pad : Nat) : State :=
  { initState mem with
    incomingData := loadBuf (fun _ => 0) [1, 8, 0, 1, 2, 4, 5, 0, 0, 100, 121] 11,
    dataLength := 8,
    eeprom := writeEEPROM mem 0 [2, 1, 4, 5, 0, 0, 100, pad] 8,
    trace := [Event.eepromWrite 0 [2, 1, 4, 5, 0, 0, 100, pad], Event.response Msg.setOk] }

/-- End-to-end scenario, state once the RUN_HOTKEY frame was dispatched at
clock reading `start`: the task is active and both keys are pressed. -/
def scenarioRunning (mem : Nat → Nat) (pad start : Nat) : State :=
  { initState mem with
    incomingData :=
      loadBuf (loadBuf (fun _ => 0) [1, 8, 0, 1, 2, 4, 5, 0, 0, 100, 121] 11) [2, 1, 0, 3] 4,
    dataLength := 1,
    currentTask :=
      { active := true, startTime := start % 4294967296, delayTime := 100,
        keyType := 1, keyCount := 2, keyCodes := [4, 5, 0] },
    eeprom := writeEEPROM mem 0 [2, 1, 4, 5, 0, 0, 100, pad] 8,
    trace := [Event.eepromWrite 0 [2, 1, 4, 5, 0, 0, 100, pad], Event.response Msg.setOk,
              Event.eepromRead 0 8, Event.press Channel.keyboard 4,
              Event.press Channel.keyboard 5, Event.println (Msg.started 0)] }

/-- The invariant of a persisted record `r` (8 bytes: keyCount, keyType, three
codes, delay high, delay low, unused): keyCount and keyType in 1..3 and a delay
of at most 5000. -/
def validRecord (r : Nat → Nat) : Prop :=
  (1 ≤ r 0 ∧ r 0 ≤ 3) ∧ (1 ≤ r 1 ∧ r 1 ≤ 3) ∧ 256 * r 5 + r 6 ≤ 5000

instance (r : Nat → Nat) : Decidable (validRecord r) := by
  unfold validRecord
  infer_instance

/-- The pointer `data` when the bytes from `incomingData[2]` on are `bytes`. -/
def payloadData (bytes : List Nat) : Nat → Nat :=
  fun i => bytes.getD i 0

/-- The HID object a `keyType` selects in the two `switch` statements
(`runHotkey` for `press`, `loop` for `releaseAll`); `none` for the values
without a `case`. -/
def channelOf (keyType : Nat) : Option Channel :=
  match keyType with
  | 1 => some Channel.keyboard
  | 2 => some Channel.consumer
  | 3 => some Channel.system
  | _ => none

/-- The task `runHotkey` builds from the record `r` read from the EEPROM. -/
def taskOfRecord (r : Nat → Nat) (now : Nat) : HotkeyTask :=
  { active := true, startTime := now % 4294967296,
    delayTime := toInt16 ((r 5 <<< 8) ||| r 6),
    keyType := r 1, keyCount := r 0, keyCodes := [r 2, r 3, r 4] }

/-! ## Transmission faults -/

/-- Flip bit `k` of a byte. -/
def flipBit (b k : Nat) : Nat :=
  b ^^^ 2 ^ k

/-- The byte sequence `f` with bit `k` of the byte at position `pos` flipped. -/
def flipAt (f : List Nat) (pos k : Nat) : List Nat :=
  f.set pos (flipBit (f.getD pos 0) k)

/-! ## Response framing -/

/-- The loop `for (i = 0; i < n; i++) checksum += message[i];` of `sendResponse`
on a `byte checksum` with the given start value. A `char` above 127 may be
negative on the target; added to a `byte` it gives the same result modulo 256
as its unsigned value, which is what `message` holds. -/
def responseChecksumLoop (message : List Nat) (checksum : Nat) : Nat → Nat
  | 0 => checksum
  | n + 1 => (responseChecksumLoop message checksum n + message.getD n 0) % 256

/-- The bytes `sendResponse(message)` hands to `Serial.write`, in order;
`message` is the string up to its terminating NUL, so `strlen` is its length. -/
def sendResponseBytes (message : List Nat) : List Nat :=
  let length := message.length % 256
  let checksum := (CMD_RESPONSE + length) % 256
  [CMD_RESPONSE, length] ++ message.take length
    ++ [responseChecksumLoop message checksum length]

/-! ## Array indices used by the press loops -/

/-- The values of `i` in `currentTask.keyCodes[i]` during one press loop
`for (i = 0; i < keyCount; i++)`, in order. -/
def pressLoopReads (keyCount : Nat) : List Nat :=
  List.range keyCount

/-- The indices at which `runHotkey(data, length)` reads `currentTask.keyCodes`
in its press loops, in order: none on the early returns and in the `default`
branch, those of the loop of the selected `case` otherwise. -/
def runHotkeyKeyCodeReads (s : State) (data : Nat → Nat) (length : Nat) : List Nat :=
  if s.currentTask.active then []
  else if length < 1 then []
  else
    let index : Int := (data 0 : Nat)
    if index < 0 ∨ index ≥ HOTKEY_COUNT then []
    else
      let eepromAddress : Nat := (EEPROM_START_ADDRESS + index * HOTKEY_SIZE).toNat
      let hotkeyData := readEEPROM s.eeprom eepromAddress HOTKEY_SIZE
      let keyCount := hotkeyData 0
      let keyType := hotkeyData 1
      match keyType with
      | 1 => pressLoopReads keyCount
      | 2 => pressLoopReads keyCount
      | 3 => pressLoopReads keyCount
      | _ => []

/-! ## Byte streams of several frames -/

/-- A frame as it travels on the serial link: command byte, payload, and the
trailing byte in the place of the checksum (right or wrong). -/
structure WireFrame where
  command : Nat
  payload : List Nat
  check : Nat

/-- The bytes of a frame on the wire: command, payload length, payload, trailing byte. -/
def WireFrame.bytes (f : WireFrame) : List Nat :=
  (f.command :: f.payload.length :: f.payload) ++ [f.check]

/-- The trailing byte is the sum of all preceding bytes modulo 256. -/
def WireFrame.wellFormed (f : WireFrame) : Prop :=
  f.check = (f.command + f.payload.length + f.payload.sum) % 256

instance (f : WireFrame) : Decidable f.wellFormed := by
  unfold WireFrame.wellFormed
  infer_instance

/-- The frames sent back to back. -/
def streamBytes : List WireFrame → List Nat
  | [] => []
  | f :: fs => f.bytes ++ streamBytes fs

/-! ## Reachable states -/

/-- The states the firmware can be in while every store of `processSerialData`
stays inside `incomingData`, for an EEPROM content `mem` at start-up: the
state after `setup`, and from there any sequence of the steps `loop` is made
of, with any received byte, clock reading and stack content. A call of
`processSerialData` at a cursor of `INCOMING_CAPACITY` or more stores behind
the array and is not a step of this relation. -/
inductive Reachable (mem : Nat → Nat) : State → Prop where
  /-- State after `setup`. -/
  | init : Reachable mem (initState mem)
  /-- Call `processSerialData(incomingByte)` with the cursor inside the array. -/
  | feedByte (s : State) (b : Nat) :
      Reachable mem s → s.index < INCOMING_CAPACITY → Reachable mem (processSerialData s b)
  /-- Assignment `dataReady = false`. -/
  | clearReady (s : State) : Reachable mem s → Reachable mem { s with dataReady := false }
  /-- Call `executeCommand()`. -/
  | dispatch (s : State) (now stackByte : Nat) :
      Reachable mem s → Reachable mem (executeCommand s now stackByte)
  /-- The task check at the end of `loop`. -/
  | poll (s : State) (now : Nat) : Reachable mem s → Reachable mem (pollTask s now)

/-- Whether an event is a HID call (`press` or `releaseAll`). -/
def isHid : Event → Bool
  | Event.press _ _ => true
  | Event.releaseAll _ => true
  | _ => false

/-- While a task is active its keyType selects a channel, and the trace ends
with the `keyCount` calls of `press` that `runHotkey` made on that channel for
this task, followed only by events that are not HID calls. -/
def ActiveTaskPressed (s : State) : Prop :=
  s.currentTask.active = true →
    ∃ ch pre presses post, channelOf s.currentTask.keyType = some ch ∧
      s.trace = pre ++ presses ++ post ∧
      presses.length = s.currentTask.keyCount ∧
      (∀ e ∈ presses, ∃ code, e = Event.press ch code) ∧
      ∀ e ∈ post, isHid e = false

/-! ## Task checks over several iterations -/

/-- The task checks of consecutive iterations, at the given clock readings. -/
def pollAll (s : State) (times : List Nat) : State :=
  times.foldl pollTask s

/-- The clock readings of the task checks of the `k` iterations numbered from
`n` on. -/
def pollTimes (clk : Nat → Tick) : Nat → Nat → List Nat
  | _, 0 => []
  | n, k + 1 => (clk n).millisPoll :: pollTimes clk (n + 1) k

/-- The state after the task check released the task on channel `ch`. -/
def releasedState (s : State) (ch : Channel) : State :=
  { s with currentTask := { s.currentTask with active := false },
           trace := s.trace ++ [Event.releaseAll ch, Event.println Msg.done] }

/-! ## Decoder lemmas -/

theorem feed_append (s : State) (a b : List Nat) :
    feed s (a ++ b) = feed (feed s a) b := by
  simp [feed, List.foldl_append]

theorem feed_snoc (s : State) (a : List Nat) (x : Nat) :
    feed s (a ++ [x]) = processSerialData (feed s a) x := by
  simp [feed, List.foldl_append]

theorem checksumLoop_congr (b1 b2 : Nat → Nat) (n : Nat) (h : ∀ i, i < n → b1 i = b2 i) :
    checksumLoop b1 n = checksumLoop b2 n := by
  induction n with
  | zero => rfl
  | succ n ih =>
    simp only [checksumLoop]
    rw [ih (fun i hi => h i (by omega)), h n (by omega)]

theorem getD_append_left (a b : List Nat) (i : Nat) (h : i < a.length) :
    (a ++ b).getD i 0 = a.getD i 0 := by
  simp [List.getD, List.getElem?_append_left h]

theorem getD_append_length (a : List Nat) (x : Nat) :
    (a ++ [x]).getD a.length 0 = x := by
  simp [List.getD]

theorem checksumLoop_loadBuf (buf : Nat → Nat) (a : List Nat) :
    checksumLoop (loadBuf buf a a.length) a.length = a.sum % 256 := by
  induction a using List.reverseRecOn with
  | nil => rfl
  | append_singleton l x ih =>
    simp only [List.length_append, List.length_singleton, checksumLoop, List.sum_append,
      List.sum_singleton]
    have h1 : checksumLoop (loadBuf buf (l ++ [x]) (l.length + 1)) l.length
        = checksumLoop (loadBuf buf l l.length) l.length := by
      apply checksumLoop_congr
      intro i hi
      simp only [loadBuf, hi, Nat.lt_succ_of_lt hi, if_true]
      rw [getD_append_left l [x] i hi]
    have h2 : loadBuf buf (l ++ [x]) (l.length + 1) l.length = x % 256 := by
      simp [loadBuf, getD_append_length]
    rw [h1, h2, ih]
    omega

theorem setByte_loadBuf (buf : Nat → Nat) (l : List Nat) (x : Nat) :
    setByte (loadBuf buf l l.length) l.length (x % 256)
      = loadBuf buf (l ++ [x]) (l.length + 1) := by
  funext j
  simp only [setByte, loadBuf]
  by_cases h1 : j = l.length
  · subst h1
    simp [getD_append_length]
  · by_cases h2 : j < l.length
    · have h3 : j < l.length + 1 := by omega
      simp only [h1, h2, h3, if_true, if_false]
      rw [getD_append_left l [x] j h2]
    · have h3 : ¬ j < l.length + 1 := by omega
      simp only [h1, h2, h3, if_false]

theorem loadBuf_one (buf : Nat → Nat) (a : List Nat) (h : 2 ≤ a.length) :
    loadBuf buf a a.length 1 = a.getD 1 0 % 256 := by
  have h1 : 1 < a.length := by omega
  simp only [loadBuf, h1, if_true]

theorem feed_assembling (s : State) (a : List Nat) (h0 : s.index = 0)
    (h : 2 ≤ a.length → a.length < a.getD 1 0 % 256 + 3) :
    feed s a = assemblingState s a := by
  induction a using List.reverseRecOn with
  | nil =>
    have hb : ∀ b : Nat → Nat, loadBuf b [] 0 = b := by
      intro b
      funext j
      simp [loadBuf]
    cases s
    simp only [feed, List.foldl_nil, assemblingState, List.length_nil] at *
    subst h0
    simp [hb]
  | append_singleton l x ih =>
    have hl : 2 ≤ l.length → l.length < l.getD 1 0 % 256 + 3 := by
      intro h2
      have h3 := h (by simp; omega)
      rw [getD_append_left l [x] 1 (by omega)] at h3
      simp only [List.length_append, List.length_singleton] at h3
      omega
    rw [feed_snoc, ih hl]
    simp only [processSerialData, assemblingState, setByte_loadBuf]
    by_cases h2 : 2 ≤ l.length + 1
    · have h3 := h (by simp; omega)
      have h4 := loadBuf_one s.incomingData (l ++ [x]) (by simp; omega)
      simp only [List.length_append, List.length_singleton] at h3 h4
      have h5 : ¬ (l.length + 1 = (l ++ [x]).getD 1 0 % 256 + 3) := by omega
      simp only [h2, if_true, h4, h5, if_false, List.length_append, List.length_singleton]
    · have h6 : ¬ 2 ≤ l.length := by omega
      simp only [h2, h6, if_false, List.length_append, List.length_singleton]

theorem feed_complete (s : State) (a : List Nat) (x : Nat) (h0 : s.index = 0)
    (hlen : a.length = a.getD 1 0 % 256 + 2) :
    feed s (a ++ [x]) = completedState s (a ++ [x]) (decide (a.sum % 256 = x % 256)) := by
  rw [feed_snoc, feed_assembling s a h0 (by omega)]
  have h1 := loadBuf_one s.incomingData (a ++ [x]) (by simp; omega)
  simp only [List.length_append, List.length_singleton] at h1
  have h2 : (a ++ [x]).getD 1 0 = a.getD 1 0 := getD_append_left a [x] 1 (by omega)
  have h3 : checksumLoop (loadBuf s.incomingData (a ++ [x]) (a.length + 1)) a.length
      = a.sum % 256 := by
    rw [← checksumLoop_loadBuf s.incomingData a]
    apply checksumLoop_congr
    intro i hi
    simp only [loadBuf, hi, Nat.lt_succ_of_lt hi, if_true]
    rw [getD_append_left a [x] i hi]
  have h4 : loadBuf s.incomingData (a ++ [x]) (a.length + 1) a.length = x % 256 := by
    simp [loadBuf, getD_append_length]
  have h5 : 2 ≤ a.length + 1 := by omega
  have h6 : a.length + 1 = a.getD 1 0 % 256 + 3 := by omega
  simp only [processSerialData, assemblingState, setByte_loadBuf]
  rw [if_pos h5]
  simp only [h1, h2]
  rw [if_pos h6]
  simp only [Nat.add_sub_cancel, h3, h4]
  by_cases hc : a.sum % 256 = x % 256
  · simp only [completedState, hc, h2, decide_True, if_true, List.length_append,
      List.length_singleton]
  · simp only [completedState, hc, h2, decide_False, List.length_append,
      List.length_singleton, Bool.false_eq_true, if_false]

theorem take_getD_one (l : List Nat) (k : Nat) (hk : 2 ≤ k) :
    (l.take k).getD 1 0 = l.getD 1 0 := by
  obtain ⟨j, rfl⟩ : ∃ j, k = j + 2 := ⟨k - 2, by omega⟩
  match l with
  | [] => rfl
  | [_] => rfl
  | _ :: _ :: _ => rfl

theorem encodeFrame_eq (c : Nat) (p : List Nat) :
    encodeFrame c p = (c :: p.length :: p) ++ [(c + p.length + p.sum) % 256] := rfl

theorem getD_lt_of_forall (p : List Nat) (hp : ∀ b ∈ p, b < 256) (i : Nat) :
    p.getD i 0 < 256 := by
  by_cases h : i < p.length
  · rw [List.getD_eq_getElem p 0 h]
    exact hp _ (List.getElem_mem h)
  · rw [List.getD_eq_default p 0 (by omega)]
    omega

theorem feed_take_assembling (s : State) (a : List Nat) (x : Nat) (h0 : s.index = 0)
    (hlen : a.length = a.getD 1 0 % 256 + 2) (k : Nat) (hk : k < a.length + 1) :
    feed s ((a ++ [x]).take k) = assemblingState s (a.take k) := by
  rw [List.take_append_of_le_length (by omega), feed_assembling s _ h0]
  intro h2
  have hk2 : 2 ≤ k := by
    simp only [List.length_take] at h2
    omega
  rw [take_getD_one _ k hk2]
  simp only [List.length_take]
  omega

set_option maxRecDepth 100000 in
theorem flipBit_cases :
    ∀ b < 256, ∀ k < 8,
      flipBit b k < 256 ∧ (flipBit b k = b + 2 ^ k ∨ flipBit b k + 2 ^ k = b) := by
  unfold flipBit
  decide

theorem two_pow_lt_256 (k : Nat) (hk : k < 8) : 0 < 2 ^ k ∧ 2 ^ k < 256 := by
  interval_cases k <;> simp

theorem sum_set_add (l : List Nat) (i v : Nat) (h : i < l.length) :
    (l.set i v).sum + l.getD i 0 = l.sum + v := by
  induction l generalizing i with
  | nil => simp at h
  | cons y ys ih =>
    cases i with
    | zero =>
      simp only [List.set_cons_zero, List.sum_cons, List.getD_cons_zero]
      omega
    | succ j =>
      have hj : j < ys.length := by
        simp only [List.length_cons] at h
        omega
      have := ih j hj
      simp only [List.set_cons_succ, List.sum_cons, List.getD_cons_succ]
      omega

theorem getD_set_ne (l : List Nat) (i j v : Nat) (h : i ≠ j) :
    (l.set i v).getD j 0 = l.getD j 0 := by
  simp only [List.getD_eq_getElem?_getD, List.getElem?_set, h, if_false]

/-! ## Command lemmas -/

theorem shl8_or (a b : Nat) (hb : b < 256) : (a <<< 8) ||| b = 256 * a + b := by
  have h := Nat.mul_add_lt_is_or (show b < 2 ^ 8 by omega) a
  rw [Nat.shiftLeft_eq, Nat.mul_comm a (2 ^ 8), ← h]

theorem toInt16_ok_iff (n : Nat) (hn : n < 65536) :
    (¬ (toInt16 n < 0 ∨ toInt16 n > 5000)) ↔ n ≤ 5000 := by
  unfold toInt16
  split <;> omega

theorem toInt16_small (n : Nat) (hn : n ≤ 5000) : toInt16 n = (n : Int) := by
  unfold toInt16
  split <;> omega

theorem setHotkey_valid (s : State) (data : Nat → Nat) (length stackByte : Nat)
    (hlen : 7 ≤ length) (h7 : data 7 < 256)
    (h0 : data 0 < 32) (h1 : 1 ≤ data 1 ∧ data 1 ≤ 3) (h2 : 1 ≤ data 2 ∧ data 2 ≤ 3)
    (h3 : 256 * data 6 + data 7 ≤ 5000) :
    setHotkey s data length stackByte =
      { s with
        eeprom := writeEEPROM s.eeprom (8 * data 0)
          [data 2, data 1, data 3, data 4, data 5, data 6, data 7, stackByte] 8,
        trace := s.trace ++
          [Event.eepromWrite (8 * data 0)
             [data 2, data 1, data 3, data 4, data 5, data 6, data 7, stackByte],
           Event.response Msg.setOk] } := by
  have hl : ¬ length < 7 := by omega
  have hd := shl8_or (data 6) (data 7) h7
  have hdel := toInt16_ok_iff (256 * data 6 + data 7) (by omega)
  simp only [setHotkey, hl, if_false, hd, HOTKEY_COUNT, HOTKEY_SIZE, EEPROM_START_ADDRESS]
  have c0 : ¬ (((data 0 : Nat) : Int) < 0 ∨ ((data 0 : Nat) : Int) ≥ ((32 : Nat) : Int)) := by
    omega
  have c1 : ¬ (((data 1 : Nat) : Int) < 1 ∨ ((data 1 : Nat) : Int) > 3) := by omega
  have c2 : ¬ (((data 2 : Nat) : Int) < 1 ∨ ((data 2 : Nat) : Int) > 3) := by omega
  have c3 := hdel.mpr h3
  have e0 : (((0 : Nat) : Int) + ((data 0 : Nat) : Int) * ((8 : Nat) : Int)).toNat
      = 8 * data 0 := by omega
  have e1 : (((data 1 : Nat) : Int) % 256).toNat = data 1 := by omega
  have e2 : (((data 2 : Nat) : Int) % 256).toNat = data 2 := by omega
  rw [if_neg c0, if_neg c1, if_neg c2, if_neg c3]
  simp only [e0, e1, e2, sendResponse, emit, List.getD_cons_zero, List.getD_cons_succ,
    List.take, List.append_assoc, List.singleton_append]

theorem setHotkey_invalid (s : State) (data : Nat → Nat) (length stackByte : Nat)
    (hlen : 7 ≤ length) (h6 : data 6 < 256) (h7 : data 7 < 256)
    (hbad : ¬ (data 0 < 32 ∧ (1 ≤ data 1 ∧ data 1 ≤ 3) ∧ (1 ≤ data 2 ∧ data 2 ≤ 3) ∧
        256 * data 6 + data 7 ≤ 5000)) :
    setHotkey s data length stackByte =
      emit s (Event.println
        (if ¬ data 0 < 32 then Msg.indexOutOfRange
         else if ¬ (1 ≤ data 1 ∧ data 1 ≤ 3) then Msg.invalidKeyType
         else if ¬ (1 ≤ data 2 ∧ data 2 ≤ 3) then Msg.badKeyCount
         else Msg.badDelay)) := by
  have hl : ¬ length < 7 := by omega
  have hd := shl8_or (data 6) (data 7) h7
  have hdel := toInt16_ok_iff (256 * data 6 + data 7) (by omega)
  simp only [setHotkey, hl, if_false, hd, HOTKEY_COUNT, HOTKEY_SIZE, EEPROM_START_ADDRESS]
  by_cases h0 : data 0 < 32
  · have c0 : ¬ (((data 0 : Nat) : Int) < 0 ∨ ((data 0 : Nat) : Int) ≥ ((32 : Nat) : Int)) := by
      omega
    rw [if_neg c0, if_neg (not_not.mpr h0)]
    by_cases h1 : 1 ≤ data 1 ∧ data 1 ≤ 3
    · have c1 : ¬ (((data 1 : Nat) : Int) < 1 ∨ ((data 1 : Nat) : Int) > 3) := by omega
      rw [if_neg c1, if_neg (not_not.mpr h1)]
      by_cases h2 : 1 ≤ data 2 ∧ data 2 ≤ 3
      · have c2 : ¬ (((data 2 : Nat) : Int) < 1 ∨ ((data 2 : Nat) : Int) > 3) := by omega
        have c3 : (toInt16 (256 * data 6 + data 7) < 0 ∨
            toInt16 (256 * data 6 + data 7) > 5000) := by
          by_contra hc
          exact hbad ⟨h0, h1, h2, hdel.mp hc⟩
        rw [if_neg c2, if_neg (not_not.mpr h2), if_pos c3]
      · have c2 : (((data 2 : Nat) : Int) < 1 ∨ ((data 2 : Nat) : Int) > 3) := by omega
        rw [if_pos c2, if_pos h2]
    · have c1 : (((data 1 : Nat) : Int) < 1 ∨ ((data 1 : Nat) : Int) > 3) := by omega
      rw [if_pos c1, if_pos h1]
  · have c0 : (((data 0 : Nat) : Int) < 0 ∨ ((data 0 : Nat) : Int) ≥ ((32 : Nat) : Int)) := by
      omega
    rw [if_pos c0, if_pos h0]

theorem runHotkey_idle (s : State) (data : Nat → Nat) (length now : Nat)
    (hidle : s.currentTask.active = false) (hl : 1 ≤ length) (hi : data 0 < 32) :
    runHotkey s data length now =
      match channelOf (readEEPROM s.eeprom (8 * data 0) 8 1) with
      | some ch =>
        { s with
          currentTask := taskOfRecord (readEEPROM s.eeprom (8 * data 0) 8) now,
          trace := s.trace ++ [Event.eepromRead (8 * data 0) 8]
            ++ pressLoop ch
                [readEEPROM s.eeprom (8 * data 0) 8 2, readEEPROM s.eeprom (8 * data 0) 8 3,
                 readEEPROM s.eeprom (8 * data 0) 8 4]
                (readEEPROM s.eeprom (8 * data 0) 8 0)
            ++ [Event.println (Msg.started ((data 0 : Nat) : Int))] }
      | none =>
        { s with
          currentTask :=
            { taskOfRecord (readEEPROM s.eeprom (8 * data 0) 8) now with active := false },
          trace := s.trace ++ [Event.eepromRead (8 * data 0) 8]
            ++ [Event.println Msg.unknownKeyType] } := by
  have hl1 : ¬ length < 1 := by omega
  have c0 : ¬ (((data 0 : Nat) : Int) < 0 ∨ ((data 0 : Nat) : Int) ≥ ((32 : Nat) : Int)) := by
    omega
  have e0 : (((0 : Nat) : Int) + ((data 0 : Nat) : Int) * ((8 : Nat) : Int)).toNat
      = 8 * data 0 := by omega
  simp only [runHotkey, hidle, Bool.false_eq_true, if_false, hl1, HOTKEY_COUNT, HOTKEY_SIZE,
    EEPROM_START_ADDRESS]
  rw [if_neg c0]
  simp only [e0, emit, taskOfRecord, Nat.add_zero, Nat.reduceAdd]
  split <;> rename_i hk
  · simp [channelOf, hk]
  · simp [channelOf, hk]
  · simp [channelOf, hk]
  · rename_i h1 h2 h3
    simp [channelOf]

theorem readEEPROM_writeEEPROM (mem : Nat → Nat) (a : Nat) (l : List Nat) (k : Nat)
    (hk : k < 8) :
    readEEPROM (writeEEPROM mem a l 8) a 8 k = l.getD k 0 := by
  have h1 : a ≤ a + k ∧ a + k < a + 8 := by omega
  simp only [readEEPROM, writeEEPROM, hk, if_true, h1, and_self, Nat.add_sub_cancel_left]

theorem pressLoop_eq_take (ch : Channel) (codes : List Nat) (k : Nat) (hk : k ≤ codes.length) :
    pressLoop ch codes k = (codes.take k).map (Event.press ch) := by
  apply List.ext_getElem
  · simp [pressLoop, hk]
  · intro i h1 h2
    have hi : i < k := by simpa [pressLoop] using h1
    have hc : i < codes.length := by omega
    simp [pressLoop, List.getElem?_eq_getElem hc]

theorem channelOf_some (k : Nat) (hk : 1 ≤ k ∧ k ≤ 3) : ∃ ch, channelOf k = some ch := by
  obtain ⟨h1, h3⟩ := hk
  interval_cases k
  · exact ⟨Channel.keyboard, rfl⟩
  · exact ⟨Channel.consumer, rfl⟩
  · exact ⟨Channel.system, rfl⟩

theorem channelOf_eq_some (k : Nat) (ch : Channel) (h : channelOf k = some ch) :
    (k = 1 ∧ ch = Channel.keyboard) ∨ (k = 2 ∧ ch = Channel.consumer) ∨
      (k = 3 ∧ ch = Channel.system) := by
  unfold channelOf at h
  split at h <;> simp_all

theorem pollTask_inactive (s : State) (now : Nat) (h : s.currentTask.active = false) :
    pollTask s now = s := by
  simp [pollTask, h]

theorem pollTask_waiting (s : State) (now : Nat)
    (h : ¬ subULong now s.currentTask.startTime ≥ toULong s.currentTask.delayTime) :
    pollTask s now = s := by
  unfold pollTask
  by_cases ha : s.currentTask.active = true
  · rw [if_pos ha, if_neg h]
  · rw [if_neg ha]

theorem pollTask_release (s : State) (now : Nat) (ch : Channel)
    (ha : s.currentTask.active = true) (hch : channelOf s.currentTask.keyType = some ch)
    (h : subULong now s.currentTask.startTime ≥ toULong s.currentTask.delayTime) :
    pollTask s now =
      { s with currentTask := { s.currentTask with active := false },
               trace := s.trace ++ [Event.releaseAll ch, Event.println Msg.done] } := by
  unfold pollTask
  rw [if_pos ha, if_pos h]
  rcases channelOf_eq_some _ _ hch with ⟨hk, rfl⟩ | ⟨hk, rfl⟩ | ⟨hk, rfl⟩ <;>
    simp [hk, emit]

/-! ## Loop lemmas -/

theorem assemblingState_nil (s : State) (h0 : s.index = 0) : assemblingState s [] = s := by
  rw [← feed_assembling s [] h0 (by simp)]
  rfl

theorem loop_assembling (s : State) (a : List Nat) (b : Nat) (t : Tick)
    (h0 : s.index = 0) (hr : s.dataReady = false) (hidle : s.currentTask.active = false)
    (hpart : 2 ≤ (a ++ [b]).length → (a ++ [b]).length < (a ++ [b]).getD 1 0 % 256 + 3)
    (ht : t.serial = some b) :
    loop (assemblingState s a) t = assemblingState s (a ++ [b]) := by
  have ha : 2 ≤ a.length → a.length < a.getD 1 0 % 256 + 3 := by
    intro h2
    have h3 := hpart (by simp only [List.length_append, List.length_singleton]; omega)
    rw [getD_append_left a [b] 1 (by omega)] at h3
    simp only [List.length_append, List.length_singleton] at h3
    omega
  have hstep : processSerialData (assemblingState s a) b = assemblingState s (a ++ [b]) := by
    rw [← feed_assembling s a h0 ha, ← feed_snoc, feed_assembling s (a ++ [b]) h0 hpart]
  have hr2 : (assemblingState s (a ++ [b])).dataReady = false := hr
  have hi2 : (assemblingState s (a ++ [b])).currentTask.active = false := hidle
  simp only [loop, ht, hstep, hr2, Bool.false_eq_true, if_false]
  exact pollTask_inactive _ _ hi2

theorem runTicks_assembling (s : State) (clk : Nat → Tick)
    (h0 : s.index = 0) (hr : s.dataReady = false) (hidle : s.currentTask.active = false)
    (bs : List Nat) :
    ∀ (a : List Nat) (n : Nat),
      (2 ≤ (a ++ bs).length → (a ++ bs).length < (a ++ bs).getD 1 0 % 256 + 3) →
      runTicks (assemblingState s a) (byteTicks clk n bs) = assemblingState s (a ++ bs) := by
  induction bs with
  | nil =>
    intro a n _
    simp [runTicks, byteTicks]
  | cons b bs ih =>
    intro a n hpart
    have hab : 2 ≤ (a ++ [b]).length →
        (a ++ [b]).length < (a ++ [b]).getD 1 0 % 256 + 3 := by
      intro h2
      have h2a : 2 ≤ a.length + 1 := by
        simpa only [List.length_append, List.length_singleton] using h2
      have h3 := hpart (by simp only [List.length_append, List.length_cons]; omega)
      have h4 : (a ++ b :: bs).getD 1 0 = (a ++ [b]).getD 1 0 := by
        have : a ++ b :: bs = (a ++ [b]) ++ bs := by simp
        rw [this, getD_append_left (a ++ [b]) bs 1
          (by simp only [List.length_append, List.length_singleton]; omega)]
      rw [h4] at h3
      simp only [List.length_append, List.length_cons, List.length_nil] at h3 ⊢
      omega
    have hstep := loop_assembling s a b { clk n with serial := some b } h0 hr hidle hab rfl
    have hcat : a ++ b :: bs = (a ++ [b]) ++ bs := by simp
    have hrest := ih (a ++ [b]) (n + 1) (by rw [← hcat]; exact hpart)
    rw [hcat, ← hrest]
    simp only [runTicks, byteTicks, List.foldl_cons, hstep]

theorem loop_complete (s : State) (a : List Nat) (x : Nat) (t : Tick)
    (h0 : s.index = 0) (hlen : a.length = a.getD 1 0 % 256 + 2)
    (hsum : a.sum % 256 = x % 256) (ht : t.serial = some x) :
    loop (assemblingState s a) t =
      pollTask
        (executeCommand { completedState s (a ++ [x]) true with dataReady := false }
          t.millisRun t.stackByte)
        t.millisPoll := by
  have hstep : processSerialData (assemblingState s a) x = completedState s (a ++ [x]) true := by
    rw [← feed_assembling s a h0 (by omega), ← feed_snoc, feed_complete s a x h0 hlen]
    simp [hsum]
  have hr : (completedState s (a ++ [x]) true).dataReady = true := rfl
  simp only [loop, ht, hstep, hr, if_true]

theorem runTicks_append (s : State) (a b : List Tick) :
    runTicks s (a ++ b) = runTicks (runTicks s a) b := by
  simp [runTicks, List.foldl_append]

theorem loop_quiet (s : State) (t : Tick) (ht : t.serial = none) (hr : s.dataReady = false) :
    loop s t = pollTask s t.millisPoll := by
  simp [loop, ht, hr]

theorem runTicks_quiet_idle (clk : Nat → Tick) (k : Nat) :
    ∀ (s : State) (n : Nat), s.dataReady = false → s.currentTask.active = false →
      runTicks s (quietTicks clk n k) = s := by
  induction k with
  | zero =>
    intro s n _ _
    rfl
  | succ k ih =>
    intro s n hr hidle
    have h1 : loop s { clk n with serial := none } = s := by
      rw [loop_quiet s _ rfl hr]
      exact pollTask_inactive s _ hidle
    simp only [runTicks, quietTicks, List.foldl_cons, h1]
    exact ih s (n + 1) hr hidle

theorem runTicks_quiet_waiting (clk : Nat → Tick) (k : Nat) :
    ∀ (s : State) (n : Nat), s.dataReady = false →
      (∀ j, n ≤ j → j < n + k →
        ¬ subULong (clk j).millisPoll s.currentTask.startTime
            ≥ toULong s.currentTask.delayTime) →
      runTicks s (quietTicks clk n k) = s := by
  induction k with
  | zero =>
    intro s n _ _
    rfl
  | succ k ih =>
    intro s n hr hw
    have h1 : loop s { clk n with serial := none } = s := by
      rw [loop_quiet s _ rfl hr]
      exact pollTask_waiting s _ (hw n (Nat.le_refl n) (by omega))
    simp only [runTicks, quietTicks, List.foldl_cons, h1]
    exact ih s (n + 1) hr (fun j h2 h3 => hw j (by omega) (by omega))

theorem byteTicks_append (clk : Nat → Tick) (a b : List Nat) :
    ∀ n, byteTicks clk n (a ++ b) = byteTicks clk n a ++ byteTicks clk (n + a.length) b := by
  induction a with
  | nil =>
    intro n
    simp [byteTicks]
  | cons x xs ih =>
    intro n
    have h : n + 1 + xs.length = n + (x :: xs).length := by
      simp only [List.length_cons]
      omega
    show byteTicks clk n (x :: (xs ++ b)) = byteTicks clk n (x :: xs) ++ _
    rw [byteTicks, byteTicks, ih (n + 1), h]
    rfl

theorem runTicks_frame (s : State) (clk : Nat → Tick) (n c : Nat) (p : List Nat)
    (hN : p.length ≤ 125)
    (h0 : s.index = 0) (hr : s.dataReady = false) (hidle : s.currentTask.active = false) :
    runTicks s (byteTicks clk n (encodeFrame c p)) =
      pollTask
        (executeCommand { completedState s (encodeFrame c p) true with dataReady := false }
          (clk (n + p.length + 2)).millisRun (clk (n + p.length + 2)).stackByte)
        (clk (n + p.length + 2)).millisPoll := by
  have hal : (c :: p.length :: p).length = p.length + 2 := by simp
  have hlen : (c :: p.length :: p).length = (c :: p.length :: p).getD 1 0 % 256 + 2 := by
    simp only [List.length_cons, List.getD_cons_succ, List.getD_cons_zero]
    omega
  have hsum : (c :: p.length :: p).sum % 256 = (c + p.length + p.sum) % 256 % 256 := by
    simp only [List.sum_cons]
    omega
  have hpart := runTicks_assembling s clk h0 hr hidle (c :: p.length :: p) [] n
    (by simp only [List.nil_append]; omega)
  rw [assemblingState_nil s h0, List.nil_append] at hpart
  have hn : n + (p.length + 2) = n + p.length + 2 := by omega
  rw [encodeFrame_eq, byteTicks_append, runTicks_append, hpart, hal, hn]
  simp only [byteTicks, runTicks, List.foldl_cons, List.foldl_nil]
  rw [loop_complete s (c :: p.length :: p) _ _ h0 hlen hsum rfl]

/-! ## Claims -/

/-- C1 (frame round trip): for a command byte `c` and a payload `p` of at most
125 bytes, feeding the encoded frame byte by byte from cursor 0 leaves
`dataReady` and the trace untouched after every proper initial segment, and
after the last byte `dataReady` is set, the cursor is 0, nothing was printed,
and `executeCommand` reads command `c`, length `p.length` and the payload `p`. -/
theorem C1_frame_round_trip (s : State) (c : Nat) (p : List Nat)
    (hc : c < 256) (hp : ∀ b ∈ p, b < 256) (hN : p.length ≤ 125) (h0 : s.index = 0) :
    (∀ k, k < p.length + 3 →
        (feed s ((encodeFrame c p).take k)).dataReady = s.dataReady ∧
        (feed s ((encodeFrame c p).take k)).trace = s.trace) ∧
    (feed s (encodeFrame c p)).dataReady = true ∧
    (feed s (encodeFrame c p)).index = 0 ∧
    (feed s (encodeFrame c p)).trace = s.trace ∧
    frameCommand (feed s (encodeFrame c p)) = c ∧
    frameLength (feed s (encodeFrame c p)) = p.length ∧
    (List.range p.length).map (frameData (feed s (encodeFrame c p))) = p := by
  have hlen : (c :: p.length :: p).length = (c :: p.length :: p).getD 1 0 % 256 + 2 := by
    simp only [List.length_cons, List.getD_cons_succ, List.getD_cons_zero]
    omega
  have hsum : (c :: p.length :: p).sum % 256 = (c + p.length + p.sum) % 256 % 256 := by
    simp only [List.sum_cons]
    omega
  have hfull := feed_complete s (c :: p.length :: p) ((c + p.length + p.sum) % 256) h0 hlen
  rw [← encodeFrame_eq] at hfull
  simp only [hsum, decide_True] at hfull
  refine ⟨?_, ?_⟩
  · intro k hk
    have htake : (encodeFrame c p).take k = (c :: p.length :: p).take k := by
      rw [encodeFrame_eq]
      exact List.take_append_of_le_length (by simp only [List.length_cons]; omega)
    rw [htake, feed_assembling s _ h0]
    · simp [assemblingState]
    · intro h2
      have hk2 : 2 ≤ k := by
        simp only [List.length_take, List.length_cons] at h2
        omega
      rw [take_getD_one _ k hk2]
      simp only [List.length_take, List.length_cons, List.getD_cons_succ, List.getD_cons_zero]
      omega
  · rw [hfull]
    have hl : (encodeFrame c p).length = p.length + 3 := by simp [encodeFrame]
    refine ⟨rfl, rfl, rfl, ?_, ?_, ?_⟩
    · simp only [frameCommand, completedState, loadBuf, hl]
      rw [if_pos (by omega), encodeFrame_eq,
        getD_append_left _ _ _ (by simp only [List.length_cons]; omega)]
      simp only [List.getD_cons_zero]
      omega
    · simp only [frameLength, completedState, loadBuf, hl]
      rw [if_pos (by omega), encodeFrame_eq,
        getD_append_left _ _ _ (by simp only [List.length_cons]; omega)]
      simp only [List.getD_cons_succ, List.getD_cons_zero]
      omega
    · apply List.ext_getElem
      · simp
      · intro i h1 h2
        have hi : i < p.length := h2
        simp only [List.getElem_map, List.getElem_range, frameData, completedState, loadBuf, hl]
        rw [if_pos (by omega)]
        rw [encodeFrame_eq, getD_append_left _ _ _ (by simp only [List.length_cons]; omega)]
        simp only [List.getD_cons_succ]
        rw [Nat.mod_eq_of_lt (getD_lt_of_forall p hp i), List.getD_eq_getElem p 0 hi]

/-- Witness for C1: the SET_HOTKEY frame of the end-to-end scenario. -/
theorem C1_frame_round_trip_witness :
    (∀ k, k < [0, 1, 2, 4, 5, 0, 0, 100].length + 3 →
        (feed (initState (fun _ => 0))
          ((encodeFrame 1 [0, 1, 2, 4, 5, 0, 0, 100]).take k)).dataReady
          = (initState (fun _ => 0)).dataReady ∧
        (feed (initState (fun _ => 0))
          ((encodeFrame 1 [0, 1, 2, 4, 5, 0, 0, 100]).take k)).trace
          = (initState (fun _ => 0)).trace) ∧
    (feed (initState (fun _ => 0)) (encodeFrame 1 [0, 1, 2, 4, 5, 0, 0, 100])).dataReady = true ∧
    (feed (initState (fun _ => 0)) (encodeFrame 1 [0, 1, 2, 4, 5, 0, 0, 100])).index = 0 ∧
    (feed (initState (fun _ => 0)) (encodeFrame 1 [0, 1, 2, 4, 5, 0, 0, 100])).trace
      = (initState (fun _ => 0)).trace ∧
    frameCommand (feed (initState (fun _ => 0)) (encodeFrame 1 [0, 1, 2, 4, 5, 0, 0, 100])) = 1 ∧
    frameLength (feed (initState (fun _ => 0)) (encodeFrame 1 [0, 1, 2, 4, 5, 0, 0, 100]))
      = [0, 1, 2, 4, 5, 0, 0, 100].length ∧
    (List.range [0, 1, 2, 4, 5, 0, 0, 100].length).map
        (frameData (feed (initState (fun _ => 0)) (encodeFrame 1 [0, 1, 2, 4, 5, 0, 0, 100])))
      = [0, 1, 2, 4, 5, 0, 0, 100] :=
  C1_frame_round_trip (initState (fun _ => 0)) 1 [0, 1, 2, 4, 5, 0, 0, 100]
    (by decide) (by decide) (by decide) rfl

theorem flipAt_encodeFrame_split (c : Nat) (p : List Nat) (pos k : Nat)
    (hc : c < 256) (hp : ∀ b ∈ p, b < 256) (hN : p.length ≤ 125)
    (hpos : pos < p.length + 3) (hne : pos ≠ 1) (hk : k < 8) :
    ∃ a x, flipAt (encodeFrame c p) pos k = a ++ [x] ∧ a.length = p.length + 2 ∧
      a.getD 1 0 = p.length ∧ a.sum % 256 ≠ x % 256 := by
  have hal : (c :: p.length :: p).length = p.length + 2 := by simp
  have hcs : (c + p.length + p.sum) % 256 = (c :: p.length :: p).sum % 256 := by
    simp only [List.sum_cons]
    omega
  obtain ⟨ht0, ht1⟩ := two_pow_lt_256 k hk
  by_cases hlast : pos = p.length + 2
  · refine ⟨c :: p.length :: p, flipBit ((c + p.length + p.sum) % 256) k, ?_, hal, rfl, ?_⟩
    · subst hlast
      rw [flipAt, encodeFrame_eq, ← hal, getD_append_length,
        List.set_append_right _ _ (Nat.le_refl _), Nat.sub_self, List.set_cons_zero]
    · obtain ⟨hlt, hfl⟩ := flipBit_cases ((c + p.length + p.sum) % 256) (Nat.mod_lt _ (by omega)) k hk
      rw [← hcs]
      omega
  · have hlt : pos < (c :: p.length :: p).length := by omega
    have hb : (c :: p.length :: p).getD pos 0 < 256 := by
      apply getD_lt_of_forall
      intro b hb
      simp only [List.mem_cons] at hb
      rcases hb with rfl | rfl | hb
      · exact hc
      · omega
      · exact hp b hb
    refine ⟨(c :: p.length :: p).set pos (flipBit ((c :: p.length :: p).getD pos 0) k),
      (c + p.length + p.sum) % 256, ?_, ?_, ?_, ?_⟩
    · rw [flipAt, encodeFrame_eq, getD_append_left _ _ _ hlt, List.set_append_left _ _ hlt]
    · rw [List.length_set, hal]
    · rw [getD_set_ne _ _ _ _ hne]
      rfl
    · obtain ⟨_, hfl⟩ := flipBit_cases _ hb k hk
      have hs := sum_set_add (c :: p.length :: p) pos
        (flipBit ((c :: p.length :: p).getD pos 0) k) hlt
      rw [hcs]
      omega

/-- C2 as stated fails: in the well-formed frame `[0, 1, 0, 1]` flipping bit 0
of the length byte gives `[0, 0, 0, 1]`, whose first three bytes are a
well-formed empty frame; the decoder raises `dataReady` at the third byte and
prints no checksum error, during the frame or at its end. -/
theorem C2_length_bit_flip_accepted :
    encodeFrame 0 [0] = [0, 1, 0, 1] ∧
    flipAt (encodeFrame 0 [0]) 1 0 = [0, 0, 0, 1] ∧
    (feed (initState (fun _ => 0)) ((flipAt (encodeFrame 0 [0]) 1 0).take 3)).dataReady = true ∧
    (feed (initState (fun _ => 0)) (flipAt (encodeFrame 0 [0]) 1 0)).dataReady = true ∧
    (feed (initState (fun _ => 0)) (flipAt (encodeFrame 0 [0]) 1 0)).trace = [] := by
  decide

/-- C2 (amended): for a well-formed frame with a payload of at most 125 bytes,
flipping one bit of the command byte, of a payload byte or of the checksum
byte (any position but the length byte) makes the decoder print the checksum
error at the last byte; `dataReady` is not changed by any byte of the frame
and nothing is printed before the last byte. -/
theorem C2_checksum_sensitivity (s : State) (c : Nat) (p : List Nat) (pos k : Nat)
    (hc : c < 256) (hp : ∀ b ∈ p, b < 256) (hN : p.length ≤ 125) (h0 : s.index = 0)
    (hpos : pos < p.length + 3) (hne : pos ≠ 1) (hk : k < 8) :
    (∀ j, j < p.length + 3 →
        (feed s ((flipAt (encodeFrame c p) pos k).take j)).dataReady = s.dataReady ∧
        (feed s ((flipAt (encodeFrame c p) pos k).take j)).trace = s.trace) ∧
    (feed s (flipAt (encodeFrame c p) pos k)).dataReady = s.dataReady ∧
    (feed s (flipAt (encodeFrame c p) pos k)).trace
      = s.trace ++ [Event.println Msg.checksumError] := by
  obtain ⟨a, x, hsplit, hal, ha1, hbad⟩ :=
    flipAt_encodeFrame_split c p pos k hc hp hN hpos hne hk
  have hlen : a.length = a.getD 1 0 % 256 + 2 := by
    rw [ha1, hal]
    omega
  rw [hsplit]
  refine ⟨?_, ?_⟩
  · intro j hj
    rw [feed_take_assembling s a x h0 hlen j (by omega)]
    exact ⟨rfl, rfl⟩
  · rw [feed_complete s a x h0 hlen]
    simp [completedState, hbad]

/-- Witness for C2 (amended): bit 7 of the command byte of the RUN_HOTKEY frame
`[2, 1, 0, 3]`. -/
theorem C2_checksum_sensitivity_witness :
    (∀ j, j < [0].length + 3 →
        (feed (initState (fun _ => 0)) ((flipAt (encodeFrame 2 [0]) 0 7).take j)).dataReady
          = (initState (fun _ => 0)).dataReady ∧
        (feed (initState (fun _ => 0)) ((flipAt (encodeFrame 2 [0]) 0 7).take j)).trace
          = (initState (fun _ => 0)).trace) ∧
    (feed (initState (fun _ => 0)) (flipAt (encodeFrame 2 [0]) 0 7)).dataReady
      = (initState (fun _ => 0)).dataReady ∧
    (feed (initState (fun _ => 0)) (flipAt (encodeFrame 2 [0]) 0 7)).trace
      = (initState (fun _ => 0)).trace ++ [Event.println Msg.checksumError] :=
  C2_checksum_sensitivity (initState (fun _ => 0)) 2 [0] 0 7
    (by decide) (by decide) (by decide) rfl (by decide) (by decide) (by decide)

/-- C3 (SET_HOTKEY validation): for a payload of at least 8 bytes
`[index, keyType, keyCount, code0, code1, code2, delayHi, delayLo]`, `setHotkey`
writes the record and sends the success response when `index < 32`, `keyType`
and `keyCount` are in 1..3 and `256 * delayHi + delayLo <= 5000`; otherwise it
only prints the message of the first failing check (index, keyType, keyCount,
delay), so the store is written and the success response sent exactly in the
valid case. -/
theorem C3_setHotkey_validation (s : State) (data : Nat → Nat) (length stackByte : Nat)
    (hlen : 8 ≤ length) (h6 : data 6 < 256) (h7 : data 7 < 256) :
    ((data 0 < 32 ∧ (1 ≤ data 1 ∧ data 1 ≤ 3) ∧ (1 ≤ data 2 ∧ data 2 ≤ 3) ∧
        256 * data 6 + data 7 ≤ 5000) →
      setHotkey s data length stackByte =
        { s with
          eeprom := writeEEPROM s.eeprom (8 * data 0)
            [data 2, data 1, data 3, data 4, data 5, data 6, data 7, stackByte] 8,
          trace := s.trace ++
            [Event.eepromWrite (8 * data 0)
               [data 2, data 1, data 3, data 4, data 5, data 6, data 7, stackByte],
             Event.response Msg.setOk] }) ∧
    (¬ (data 0 < 32 ∧ (1 ≤ data 1 ∧ data 1 ≤ 3) ∧ (1 ≤ data 2 ∧ data 2 ≤ 3) ∧
        256 * data 6 + data 7 ≤ 5000) →
      setHotkey s data length stackByte =
        emit s (Event.println
          (if ¬ data 0 < 32 then Msg.indexOutOfRange
           else if ¬ (1 ≤ data 1 ∧ data 1 ≤ 3) then Msg.invalidKeyType
           else if ¬ (1 ≤ data 2 ∧ data 2 ≤ 3) then Msg.badKeyCount
           else Msg.badDelay))) := by
  refine ⟨?_, ?_⟩
  · rintro ⟨h0, h1, h2, h3⟩
    exact setHotkey_valid s data length stackByte (by omega) h7 h0 h1 h2 h3
  · intro hbad
    exact setHotkey_invalid s data length stackByte (by omega) h6 h7 hbad

/-- Witness for C3, at the boundaries: index 31 with keyCount 3 and delay 5000
(bytes 19, 136) is stored; index 32, delay 5001 (bytes 19, 137), keyCount 0 and
keyCount 4 are rejected with their messages and nothing else happens. -/
theorem C3_setHotkey_validation_witness :
    setHotkey (initState (fun _ => 0)) (payloadData [31, 1, 3, 4, 5, 6, 19, 136]) 8 0 =
      { initState (fun _ => 0) with
        eeprom := writeEEPROM (fun _ => 0) 248 [3, 1, 4, 5, 6, 19, 136, 0] 8,
        trace := [Event.eepromWrite 248 [3, 1, 4, 5, 6, 19, 136, 0],
                  Event.response Msg.setOk] } ∧
    setHotkey (initState (fun _ => 0)) (payloadData [32, 1, 3, 4, 5, 6, 19, 136]) 8 0 =
      emit (initState (fun _ => 0)) (Event.println Msg.indexOutOfRange) ∧
    setHotkey (initState (fun _ => 0)) (payloadData [31, 1, 3, 4, 5, 6, 19, 137]) 8 0 =
      emit (initState (fun _ => 0)) (Event.println Msg.badDelay) ∧
    setHotkey (initState (fun _ => 0)) (payloadData [31, 1, 0, 4, 5, 6, 19, 136]) 8 0 =
      emit (initState (fun _ => 0)) (Event.println Msg.badKeyCount) ∧
    setHotkey (initState (fun _ => 0)) (payloadData [31, 1, 4, 4, 5, 6, 19, 136]) 8 0 =
      emit (initState (fun _ => 0)) (Event.println Msg.badKeyCount) :=
  ⟨(C3_setHotkey_validation (initState (fun _ => 0))
      (payloadData [31, 1, 3, 4, 5, 6, 19, 136]) 8 0
      (by decide) (by decide) (by decide)).1 (by decide),
   (C3_setHotkey_validation (initState (fun _ => 0))
      (payloadData [32, 1, 3, 4, 5, 6, 19, 136]) 8 0
      (by decide) (by decide) (by decide)).2 (by decide),
   (C3_setHotkey_validation (initState (fun _ => 0))
      (payloadData [31, 1, 3, 4, 5, 6, 19, 137]) 8 0
      (by decide) (by decide) (by decide)).2 (by decide),
   (C3_setHotkey_validation (initState (fun _ => 0))
      (payloadData [31, 1, 0, 4, 5, 6, 19, 136]) 8 0
      (by decide) (by decide) (by decide)).2 (by decide),
   (C3_setHotkey_validation (initState (fun _ => 0))
      (payloadData [31, 1, 4, 4, 5, 6, 19, 136]) 8 0
      (by decide) (by decide) (by decide)).2 (by decide)⟩

/-- C4 (SET then RUN): with the store a byte map, after an accepted SET_HOTKEY
payload `[i, keyType, keyCount, c0, c1, c2, dHi, dLo]` a RUN_HOTKEY `[i]`
dispatched while no task is active makes the task active with that keyType,
keyCount, keyCodes `[c0, c1, c2]` and delayTime `256 * dHi + dLo`, reads slot
`i`, presses the first keyCount codes in order on the channel keyType selects
and reports the start; no press or releaseAll goes to another channel. -/
theorem C4_set_then_run (s : State) (data : Nat → Nat) (length stackByte : Nat)
    (data2 : Nat → Nat) (length2 now : Nat)
    (hlen : 7 ≤ length) (h7 : data 7 < 256)
    (h0 : data 0 < 32) (h1 : 1 ≤ data 1 ∧ data 1 ≤ 3) (h2 : 1 ≤ data 2 ∧ data 2 ≤ 3)
    (h3 : 256 * data 6 + data 7 ≤ 5000)
    (hidle : s.currentTask.active = false) (hlen2 : 1 ≤ length2) (hi : data2 0 = data 0) :
    (runHotkey (setHotkey s data length stackByte) data2 length2 now).currentTask =
      { active := true, startTime := now % 4294967296,
        delayTime := ((256 * data 6 + data 7 : Nat) : Int),
        keyType := data 1, keyCount := data 2, keyCodes := [data 3, data 4, data 5] } ∧
    ∃ ch, channelOf (data 1) = some ch ∧
      (runHotkey (setHotkey s data length stackByte) data2 length2 now).trace =
        (setHotkey s data length stackByte).trace ++ [Event.eepromRead (8 * data 0) 8]
          ++ ([data 3, data 4, data 5].take (data 2)).map (Event.press ch)
          ++ [Event.println (Msg.started ((data 0 : Nat) : Int))] ∧
      ∀ e ∈ (runHotkey (setHotkey s data length stackByte) data2 length2 now).trace.drop
              (setHotkey s data length stackByte).trace.length,
        ∀ ch2, ch2 ≠ ch → (∀ code, e ≠ Event.press ch2 code) ∧ e ≠ Event.releaseAll ch2 := by
  obtain ⟨ch, hch⟩ := channelOf_some (data 1) h1
  have hset := setHotkey_valid s data length stackByte hlen h7 h0 h1 h2 h3
  have hidle1 : (setHotkey s data length stackByte).currentTask.active = false := by
    rw [hset]
    exact hidle
  have hrun := runHotkey_idle (setHotkey s data length stackByte) data2 length2 now hidle1
    hlen2 (by omega)
  have hmem : (setHotkey s data length stackByte).eeprom
      = writeEEPROM s.eeprom (8 * data 0)
          [data 2, data 1, data 3, data 4, data 5, data 6, data 7, stackByte] 8 := by
    rw [hset]
  rw [hmem, hi] at hrun
  simp only [readEEPROM_writeEEPROM, Nat.reduceLT, List.getD_cons_zero, List.getD_cons_succ,
    hch] at hrun
  have htr : (runHotkey (setHotkey s data length stackByte) data2 length2 now).trace =
        (setHotkey s data length stackByte).trace ++ [Event.eepromRead (8 * data 0) 8]
          ++ ([data 3, data 4, data 5].take (data 2)).map (Event.press ch)
          ++ [Event.println (Msg.started ((data 0 : Nat) : Int))] := by
    rw [hrun, pressLoop_eq_take ch _ _ (by simp only [List.length_cons, List.length_nil]; omega)]
  refine ⟨?_, ch, hch, htr, ?_⟩
  · rw [hrun]
    simp only [taskOfRecord, readEEPROM_writeEEPROM, Nat.reduceLT, List.getD_cons_zero,
      List.getD_cons_succ, shl8_or (data 6) (data 7) h7, toInt16_small _ h3]
  · intro e he ch2 hne
    rw [htr, List.append_assoc, List.append_assoc, List.drop_left] at he
    simp only [List.mem_append, List.mem_singleton, List.mem_map] at he
    rcases he with rfl | ⟨c, _, rfl⟩ | rfl
    · exact ⟨fun _ => by simp, by simp⟩
    · refine ⟨fun code h => hne ?_, by simp⟩
      injection h with h4 _
      exact h4.symm
    · exact ⟨fun _ => by simp, by simp⟩

/-- Witness for C4: the record of the end-to-end scenario (slot 0, keyboard,
codes 4 and 5, 100 ms), run at time 7. -/
theorem C4_set_then_run_witness :
    (runHotkey (setHotkey (initState (fun _ => 0)) (payloadData [0, 1, 2, 4, 5, 0, 0, 100]) 8 0)
        (payloadData [0]) 1 7).currentTask =
      { active := true, startTime := 7, delayTime := 100,
        keyType := 1, keyCount := 2, keyCodes := [4, 5, 0] } ∧
    (runHotkey (setHotkey (initState (fun _ => 0)) (payloadData [0, 1, 2, 4, 5, 0, 0, 100]) 8 0)
        (payloadData [0]) 1 7).trace =
      [Event.eepromWrite 0 [2, 1, 4, 5, 0, 0, 100, 0], Event.response Msg.setOk,
       Event.eepromRead 0 8, Event.press Channel.keyboard 4, Event.press Channel.keyboard 5,
       Event.println (Msg.started 0)] := by
  have h := C4_set_then_run (initState (fun _ => 0)) (payloadData [0, 1, 2, 4, 5, 0, 0, 100]) 8 0
    (payloadData [0]) 1 7 (by decide) (by decide) (by decide) (by decide) (by decide)
    (by decide) rfl (by decide) rfl
  obtain ⟨h1, ch, hch, h2, _⟩ := h
  have hk : ch = Channel.keyboard := by
    have : channelOf (payloadData [0, 1, 2, 4, 5, 0, 0, 100] 1) = some Channel.keyboard := rfl
    rw [this] at hch
    injection hch with h5
    exact h5.symm
  subst hk
  exact ⟨h1, h2⟩

/-- C5 (mutual exclusion): while a task is active, `runHotkey` with any payload
only prints the already-active message: no EEPROM read, no HID call, and the
store and every field of `currentTask` are as before. -/
theorem C5_mutual_exclusion (s : State) (data : Nat → Nat) (length now : Nat)
    (h : s.currentTask.active = true) :
    runHotkey s data length now = emit s (Event.println Msg.taskActive) ∧
    (runHotkey s data length now).currentTask = s.currentTask ∧
    (runHotkey s data length now).eeprom = s.eeprom ∧
    (runHotkey s data length now).trace = s.trace ++ [Event.println Msg.taskActive] := by
  have hr : runHotkey s data length now = emit s (Event.println Msg.taskActive) := by
    simp [runHotkey, h]
  rw [hr]
  exact ⟨rfl, rfl, rfl, rfl⟩

/-- Witness for C5: a second RUN_HOTKEY right after the one of the end-to-end
scenario started. -/
theorem C5_mutual_exclusion_witness :
    runHotkey (runHotkey (initState (payloadData [2, 1, 4, 5, 0, 0, 100, 0])) (payloadData [0]) 1 7)
        (payloadData [1]) 1 8 =
      emit (runHotkey (initState (payloadData [2, 1, 4, 5, 0, 0, 100, 0])) (payloadData [0]) 1 7)
        (Event.println Msg.taskActive) :=
  (C5_mutual_exclusion
    (runHotkey (initState (payloadData [2, 1, 4, 5, 0, 0, 100, 0])) (payloadData [0]) 1 7)
    (payloadData [1]) 1 8 (by decide)).1

/-- C6 (release on tick): for an active task whose keyType selects channel `ch`
and whose delayTime is in 0..5000, the task check of `loop` at time `now`
calls `releaseAll` on `ch` once (and on nothing else), clears `active` and
reports completion when `(now - startTime) mod 2^32 >= delayTime`, and changes
nothing otherwise; on an inactive task it changes nothing. -/
theorem C6_release_on_tick (s : State) (now : Nat) (hnow : now < 4294967296)
    (hst : s.currentTask.startTime < 4294967296) :
    (s.currentTask.active = true →
      ∀ ch, channelOf s.currentTask.keyType = some ch →
        0 ≤ s.currentTask.delayTime → s.currentTask.delayTime ≤ 5000 →
        (((now : Int) - (s.currentTask.startTime : Int)) % 4294967296
            ≥ s.currentTask.delayTime →
          pollTask s now =
            { s with currentTask := { s.currentTask with active := false },
                     trace := s.trace ++ [Event.releaseAll ch, Event.println Msg.done] }) ∧
        (¬ ((now : Int) - (s.currentTask.startTime : Int)) % 4294967296
            ≥ s.currentTask.delayTime →
          pollTask s now = s)) ∧
    (s.currentTask.active = false → pollTask s now = s) := by
  refine ⟨?_, pollTask_inactive s now⟩
  intro ha ch hch hd0 hd1
  have hsub : ((subULong now s.currentTask.startTime : Nat) : Int)
      = ((now : Int) - (s.currentTask.startTime : Int)) % 4294967296 := by
    unfold subULong
    omega
  have hdl : ((toULong s.currentTask.delayTime : Nat) : Int) = s.currentTask.delayTime := by
    unfold toULong
    omega
  refine ⟨?_, ?_⟩
  · intro h
    exact pollTask_release s now ch ha hch (by omega)
  · intro h
    exact pollTask_waiting s now (by omega)

/-- Witness for C6, across the wrap of `millis()`: a keyboard task started at
4294967290 with delay 100 is left alone at time 93 (elapsed 99) and released
at time 94 (elapsed 100). -/
theorem C6_release_on_tick_witness :
    pollTask
        { initState (fun _ => 0) with
          currentTask := { active := true, startTime := 4294967290, delayTime := 100,
                           keyType := 1, keyCount := 2, keyCodes := [4, 5, 0] } } 93 =
      { initState (fun _ => 0) with
        currentTask := { active := true, startTime := 4294967290, delayTime := 100,
                         keyType := 1, keyCount := 2, keyCodes := [4, 5, 0] } } ∧
    pollTask
        { initState (fun _ => 0) with
          currentTask := { active := true, startTime := 4294967290, delayTime := 100,
                           keyType := 1, keyCount := 2, keyCodes := [4, 5, 0] } } 94 =
      { initState (fun _ => 0) with
        currentTask := { active := false, startTime := 4294967290, delayTime := 100,
                         keyType := 1, keyCount := 2, keyCodes := [4, 5, 0] },
        trace := [Event.releaseAll Channel.keyboard, Event.println Msg.done] } :=
  ⟨((C6_release_on_tick _ 93 (by decide) (by decide)).1 (by rfl) Channel.keyboard (by rfl)
      (by decide) (by decide)).2 (by decide),
   ((C6_release_on_tick _ 94 (by decide) (by decide)).1 (by rfl) Channel.keyboard (by rfl)
      (by decide) (by decide)).1 (by decide)⟩

theorem executeCommand_set (s : State) (now pad : Nat) (h : frameCommand s = 1) :
    executeCommand s now pad = setHotkey s (frameData s) (frameLength s) pad := by
  simp [executeCommand, h, CMD_SET_HOTKEY]

theorem executeCommand_run (s : State) (now pad : Nat) (h : frameCommand s = 2) :
    executeCommand s now pad = runHotkey s (frameData s) (frameLength s) now := by
  simp [executeCommand, h, CMD_SET_HOTKEY, CMD_RUN_HOTKEY]

theorem scenario_set (mem : Nat → Nat) (clk : Nat → Tick) :
    runTicks (initState mem) (byteTicks clk 0 [1, 8, 0, 1, 2, 4, 5, 0, 0, 100, 121]) =
      scenarioStored mem (clk 10).stackByte := by
  unfold scenarioStored
  have hf1 : [1, 8, 0, 1, 2, 4, 5, 0, 0, 100, 121] = encodeFrame 1 [0, 1, 2, 4, 5, 0, 0, 100] := by
    decide
  rw [hf1, runTicks_frame (initState mem) clk 0 1 _ (by decide) rfl rfl rfl, ← hf1]
  rw [executeCommand_set _ _ _ (by simp [frameCommand, completedState, loadBuf])]
  rw [setHotkey_valid _ _ _ _
    (by simp [frameLength, completedState, loadBuf])
    (by simp [frameData, completedState, loadBuf])
    (by simp [frameData, completedState, loadBuf])
    (by simp [frameData, completedState, loadBuf])
    (by simp [frameData, completedState, loadBuf])
    (by simp [frameData, completedState, loadBuf])]
  rw [pollTask_inactive _ _ rfl]
  simp [frameData, loadBuf, completedState, initState]

theorem subULong_mod (a b : Nat) : subULong a (b % 4294967296) = subULong a b := by
  simp [subULong]

theorem scenario_run (mem : Nat → Nat) (clk : Nat → Tick) (pad : Nat)
    (h14 : subULong (clk 14).millisPoll (clk 14).millisRun < 100) :
    runTicks (scenarioStored mem pad) (byteTicks clk 11 [2, 1, 0, 3]) =
      scenarioRunning mem pad (clk 14).millisRun := by
  unfold scenarioStored scenarioRunning
  have hf2 : [2, 1, 0, 3] = encodeFrame 2 [0] := by decide
  rw [hf2, runTicks_frame _ clk 11 2 _ (by decide) rfl rfl rfl, ← hf2]
  simp only [List.length_singleton, Nat.reduceAdd]
  rw [executeCommand_run _ _ _ (by simp [frameCommand, completedState, loadBuf])]
  rw [runHotkey_idle _ _ _ _ rfl
    (by simp [frameLength, completedState, loadBuf])
    (by simp [frameData, completedState, loadBuf])]
  have hd0 : frameData
      { completedState
          { initState mem with
            incomingData := loadBuf (fun _ => 0) [1, 8, 0, 1, 2, 4, 5, 0, 0, 100, 121] 11,
            dataLength := 8,
            eeprom := writeEEPROM mem 0 [2, 1, 4, 5, 0, 0, 100, pad] 8,
            trace := [Event.eepromWrite 0 [2, 1, 4, 5, 0, 0, 100, pad],
                      Event.response Msg.setOk] }
          [2, 1, 0, 3] true with dataReady := false } 0 = 0 := by
    simp [frameData, completedState, loadBuf]
  rw [hd0]
  simp only [completedState, Nat.mul_zero, readEEPROM_writeEEPROM, Nat.reduceLT,
    List.getD_cons_zero, List.getD_cons_succ, channelOf]
  rw [pollTask_waiting]
  · simp [taskOfRecord, toInt16, pressLoop, List.range_succ, initState,
      readEEPROM_writeEEPROM]
  · simp only [taskOfRecord, readEEPROM_writeEEPROM, Nat.reduceLT, List.getD_cons_zero,
      List.getD_cons_succ, subULong_mod]
    have : toULong (toInt16 ((0 <<< 8) ||| 100)) = 100 := by decide
    rw [this]
    omega

theorem quietTicks_append (clk : Nat → Tick) (a b : Nat) :
    ∀ n, quietTicks clk n (a + b) = quietTicks clk n a ++ quietTicks clk (n + a) b := by
  induction a with
  | zero =>
    intro n
    simp [quietTicks]
  | succ a ih =>
    intro n
    have h1 : a + 1 + b = (a + b) + 1 := by omega
    have h2 : n + (a + 1) = n + 1 + a := by omega
    rw [h1, quietTicks, quietTicks, ih (n + 1), h2]
    rfl

theorem scenario_frames (mem : Nat → Nat) (clk : Nat → Tick)
    (h14 : subULong (clk 14).millisPoll (clk 14).millisRun < 100) :
    runTicks (initState mem)
        (byteTicks clk 0 ([1, 8, 0, 1, 2, 4, 5, 0, 0, 100, 121] ++ [2, 1, 0, 3])) =
      scenarioRunning mem (clk 10).stackByte (clk 14).millisRun := by
  rw [byteTicks_append, runTicks_append, scenario_set]
  exact scenario_run mem clk _ h14

theorem scenario_waiting (mem : Nat → Nat) (clk : Nat → Tick) (pad k : Nat)
    (hwait : ∀ j, 15 ≤ j → j < 15 + k →
      subULong (clk j).millisPoll (clk 14).millisRun < 100) :
    runTicks (scenarioRunning mem pad (clk 14).millisRun) (quietTicks clk 15 k) =
      scenarioRunning mem pad (clk 14).millisRun := by
  apply runTicks_quiet_waiting clk k _ 15 rfl
  intro j h1 h2
  have h3 := hwait j h1 h2
  have h4 : toULong (100 : Int) = 100 := by decide
  simp only [scenarioRunning, subULong_mod, h4]
  omega

theorem scenario_release (mem : Nat → Nat) (clk : Nat → Tick) (pad n : Nat)
    (hrel : 100 ≤ subULong (clk n).millisPoll (clk 14).millisRun) :
    runTicks (scenarioRunning mem pad (clk 14).millisRun) (quietTicks clk n 1) =
      { scenarioRunning mem pad (clk 14).millisRun with
        currentTask :=
          { active := false, startTime := (clk 14).millisRun % 4294967296, delayTime := 100,
            keyType := 1, keyCount := 2, keyCodes := [4, 5, 0] },
        trace := [Event.eepromWrite 0 [2, 1, 4, 5, 0, 0, 100, pad], Event.response Msg.setOk,
                  Event.eepromRead 0 8, Event.press Channel.keyboard 4,
                  Event.press Channel.keyboard 5, Event.println (Msg.started 0),
                  Event.releaseAll Channel.keyboard, Event.println Msg.done] } := by
  have h4 : toULong (100 : Int) = 100 := by decide
  have h5 : loop (scenarioRunning mem pad (clk 14).millisRun) { clk n with serial := none } =
      pollTask (scenarioRunning mem pad (clk 14).millisRun) (clk n).millisPoll :=
    loop_quiet _ _ rfl rfl
  simp only [quietTicks, runTicks, List.foldl_cons, List.foldl_nil, h5]
  rw [pollTask_release _ _ Channel.keyboard (by rfl) (by rfl)
    (by simp only [scenarioRunning, subULong_mod, h4]; omega)]
  simp [scenarioRunning]

/-- C7 (end-to-end scenario): fed one byte per iteration of `loop`, the frame
`[1, 8, 0,1,2,4,5,0,0,100, 121]` writes the record to slot 0 and yields the
success response; the frame `[2, 1, 0, 3]` then presses 4 and 5 on the
keyboard at the iteration of its last byte and not before; the iterations whose
elapsed time is below 100 emit nothing; the first one with elapsed time of 100
or more calls `releaseAll` on the keyboard and ends the task; later iterations
emit nothing, so `releaseAll` is called once in the whole run, the task ends
inactive and no other channel is used. -/
theorem C7_end_to_end (mem : Nat → Nat) (clk : Nat → Tick) (w r : Nat)
    (hwait : ∀ j, 14 ≤ j → j < 15 + w →
      subULong (clk j).millisPoll (clk 14).millisRun < 100)
    (hrel : 100 ≤ subULong (clk (15 + w)).millisPoll (clk 14).millisRun) :
    (runTicks (initState mem) (byteTicks clk 0 [1, 8, 0, 1, 2, 4, 5, 0, 0, 100, 121])).trace =
      [Event.eepromWrite 0 [2, 1, 4, 5, 0, 0, 100, (clk 10).stackByte],
       Event.response Msg.setOk] ∧
    (∀ k, k < 8 →
      (runTicks (initState mem) (byteTicks clk 0 [1, 8, 0, 1, 2, 4, 5, 0, 0, 100, 121])).eeprom k
        = [2, 1, 4, 5, 0, 0, 100, (clk 10).stackByte].getD k 0) ∧
    (runTicks (initState mem)
        (byteTicks clk 0 ([1, 8, 0, 1, 2, 4, 5, 0, 0, 100, 121] ++ [2, 1, 0]))).trace =
      [Event.eepromWrite 0 [2, 1, 4, 5, 0, 0, 100, (clk 10).stackByte],
       Event.response Msg.setOk] ∧
    (∀ k, k ≤ w →
      (runTicks (initState mem)
        (byteTicks clk 0 ([1, 8, 0, 1, 2, 4, 5, 0, 0, 100, 121] ++ [2, 1, 0, 3])
          ++ quietTicks clk 15 k)).trace =
      [Event.eepromWrite 0 [2, 1, 4, 5, 0, 0, 100, (clk 10).stackByte],
       Event.response Msg.setOk, Event.eepromRead 0 8, Event.press Channel.keyboard 4,
       Event.press Channel.keyboard 5, Event.println (Msg.started 0)]) ∧
    (∀ k, k ≤ r →
      (runTicks (initState mem)
        (byteTicks clk 0 ([1, 8, 0, 1, 2, 4, 5, 0, 0, 100, 121] ++ [2, 1, 0, 3])
          ++ quietTicks clk 15 (w + 1 + k))).trace =
      [Event.eepromWrite 0 [2, 1, 4, 5, 0, 0, 100, (clk 10).stackByte],
       Event.response Msg.setOk, Event.eepromRead 0 8, Event.press Channel.keyboard 4,
       Event.press Channel.keyboard 5, Event.println (Msg.started 0),
       Event.releaseAll Channel.keyboard, Event.println Msg.done] ∧
      (runTicks (initState mem)
        (byteTicks clk 0 ([1, 8, 0, 1, 2, 4, 5, 0, 0, 100, 121] ++ [2, 1, 0, 3])
          ++ quietTicks clk 15 (w + 1 + k))).currentTask.active = false ∧
      List.count (Event.releaseAll Channel.keyboard)
        (runTicks (initState mem)
          (byteTicks clk 0 ([1, 8, 0, 1, 2, 4, 5, 0, 0, 100, 121] ++ [2, 1, 0, 3])
            ++ quietTicks clk 15 (w + 1 + k))).trace = 1) := by
  have h14 := hwait 14 (Nat.le_refl 14) (by omega)
  have hframes := scenario_frames mem clk h14
  refine ⟨?_, ?_, ?_, ?_, ?_⟩
  · rw [scenario_set]
    rfl
  · intro k hk
    rw [scenario_set]
    have := readEEPROM_writeEEPROM mem 0 [2, 1, 4, 5, 0, 0, 100, (clk 10).stackByte] k hk
    simpa [readEEPROM, hk] using this
  · rw [byteTicks_append, runTicks_append, scenario_set]
    have hp := runTicks_assembling (scenarioStored mem (clk 10).stackByte) clk rfl rfl rfl
      [2, 1, 0] [] 11 (by decide)
    rw [assemblingState_nil _ rfl] at hp
    have hn : 0 + [1, 8, 0, 1, 2, 4, 5, 0, 0, 100, 121].length = 11 := rfl
    rw [hn, hp]
    rfl
  · intro k hk
    rw [runTicks_append, hframes,
      scenario_waiting mem clk _ k (fun j h1 h2 => hwait j (by omega) (by omega))]
    rfl
  · intro k hk
    have hsplit : quietTicks clk 15 (w + 1 + k)
        = quietTicks clk 15 w ++ (quietTicks clk (15 + w) 1 ++ quietTicks clk (15 + w + 1) k) := by
      rw [Nat.add_assoc, quietTicks_append, quietTicks_append]
    rw [hsplit, runTicks_append, runTicks_append, runTicks_append, hframes,
      scenario_waiting mem clk _ w (fun j h1 h2 => hwait j (by omega) h2),
      scenario_release mem clk _ (15 + w) hrel,
      runTicks_quiet_idle clk k _ _ rfl rfl]
    refine ⟨rfl, rfl, ?_⟩
    simp [List.count_cons]

/-- Witness for C7: clock readings 10 n (in `runHotkey`) and 10 n + 1 (in the
task check) at iteration n, so the task starts at 140, nine quiet iterations
(15 to 23) see less than 100 elapsed, iteration 24 sees 101, three more follow. -/
theorem C7_end_to_end_witness :
    (∀ k, k ≤ 9 →
      (runTicks (initState (fun _ => 0))
        (byteTicks (fun n => ⟨none, 10 * n, 10 * n + 1, 0⟩) 0
            ([1, 8, 0, 1, 2, 4, 5, 0, 0, 100, 121] ++ [2, 1, 0, 3])
          ++ quietTicks (fun n => ⟨none, 10 * n, 10 * n + 1, 0⟩) 15 k)).trace =
      [Event.eepromWrite 0 [2, 1, 4, 5, 0, 0, 100, 0],
       Event.response Msg.setOk, Event.eepromRead 0 8, Event.press Channel.keyboard 4,
       Event.press Channel.keyboard 5, Event.println (Msg.started 0)]) ∧
    (runTicks (initState (fun _ => 0))
        (byteTicks (fun n => ⟨none, 10 * n, 10 * n + 1, 0⟩) 0
            ([1, 8, 0, 1, 2, 4, 5, 0, 0, 100, 121] ++ [2, 1, 0, 3])
          ++ quietTicks (fun n => ⟨none, 10 * n, 10 * n + 1, 0⟩) 15 (9 + 1 + 3))).trace =
      [Event.eepromWrite 0 [2, 1, 4, 5, 0, 0, 100, 0],
       Event.response Msg.setOk, Event.eepromRead 0 8, Event.press Channel.keyboard 4,
       Event.press Channel.keyboard 5, Event.println (Msg.started 0),
       Event.releaseAll Channel.keyboard, Event.println Msg.done] := by
  have h := C7_end_to_end (fun _ => 0) (fun n => ⟨none, 10 * n, 10 * n + 1, 0⟩) 9 3
    (by
      intro j h1 h2
      interval_cases j <;> decide)
    (by decide)
  exact ⟨h.2.2.2.1, (h.2.2.2.2 3 (Nat.le_refl 3)).1⟩

theorem writeIndices_append (a b : List Nat) :
    ∀ s : State, writeIndices s (a ++ b) = writeIndices s a ++ writeIndices (feed s a) b := by
  induction a with
  | nil =>
    intro s
    rfl
  | cons x xs ih =>
    intro s
    show s.index :: writeIndices (processSerialData s x) (xs ++ b) = _
    rw [ih]
    rfl

/-- C8 fails on the code: after the two bytes `[1, 255]` (a frame announcing a
255-byte payload) and 126 further bytes the cursor is 128 and no frame is
complete, so the next byte is stored at `incomingData[128]`, one past the
128-byte array; nothing in `processSerialData` bounds the index. -/
theorem C8_write_past_buffer :
    INCOMING_CAPACITY = 128 ∧
    (feed (initState (fun _ => 0)) (1 :: 255 :: List.replicate 126 0)).index = 128 ∧
    128 ∈ writeIndices (initState (fun _ => 0)) ((1 :: 255 :: List.replicate 126 0) ++ [0]) ∧
    ¬ (∀ i ∈ writeIndices (initState (fun _ => 0)) ((1 :: 255 :: List.replicate 126 0) ++ [0]),
        i < INCOMING_CAPACITY) := by
  have hfeed : feed (initState (fun _ => 0)) (1 :: 255 :: List.replicate 126 0)
      = assemblingState (initState (fun _ => 0)) (1 :: 255 :: List.replicate 126 0) :=
    feed_assembling _ _ rfl (by
      intro _
      show (1 :: 255 :: List.replicate 126 0).length < 255 % 256 + 3
      simp only [List.length_cons, List.length_replicate]
      omega)
  have hidx : (feed (initState (fun _ => 0)) (1 :: 255 :: List.replicate 126 0)).index = 128 := by
    rw [hfeed]
    show (1 :: 255 :: List.replicate 126 0).length = 128
    simp only [List.length_cons, List.length_replicate]
  have hmem : 128 ∈ writeIndices (initState (fun _ => 0))
      ((1 :: 255 :: List.replicate 126 0) ++ [0]) := by
    rw [writeIndices_append, List.mem_append]
    right
    show 128 ∈ [(feed (initState (fun _ => 0)) (1 :: 255 :: List.replicate 126 0)).index]
    rw [hidx]
    exact List.mem_singleton.mpr rfl
  refine ⟨rfl, hidx, hmem, ?_⟩
  intro hall
  have := hall 128 hmem
  simp [INCOMING_CAPACITY] at this

theorem setHotkey_cases (s : State) (data : Nat → Nat) (length stackByte : Nat)
    (h6 : data 6 < 256) (h7 : data 7 < 256) :
    ((data 0 < 32 ∧ (1 ≤ data 1 ∧ data 1 ≤ 3) ∧ (1 ≤ data 2 ∧ data 2 ≤ 3) ∧
        256 * data 6 + data 7 ≤ 5000) ∧
      setHotkey s data length stackByte =
        { s with
          eeprom := writeEEPROM s.eeprom (8 * data 0)
            [data 2, data 1, data 3, data 4, data 5, data 6, data 7, stackByte] 8,
          trace := s.trace ++
            [Event.eepromWrite (8 * data 0)
               [data 2, data 1, data 3, data 4, data 5, data 6, data 7, stackByte],
             Event.response Msg.setOk] }) ∨
    (∃ m, setHotkey s data length stackByte = emit s (Event.println m)) := by
  by_cases hlen : 7 ≤ length
  · by_cases hv : data 0 < 32 ∧ (1 ≤ data 1 ∧ data 1 ≤ 3) ∧ (1 ≤ data 2 ∧ data 2 ≤ 3) ∧
        256 * data 6 + data 7 ≤ 5000
    · left
      exact ⟨hv, setHotkey_valid s data length stackByte hlen h7 hv.1 hv.2.1 hv.2.2.1 hv.2.2.2⟩
    · right
      exact ⟨_, setHotkey_invalid s data length stackByte hlen h6 h7 hv⟩
  · right
    refine ⟨Msg.tooShort, ?_⟩
    have hl : length < 7 := by omega
    simp [setHotkey, hl]

theorem runHotkey_eeprom (s : State) (data : Nat → Nat) (length now : Nat) :
    (runHotkey s data length now).eeprom = s.eeprom := by
  unfold runHotkey
  split
  · rfl
  · split
    · rfl
    · simp only []
      split
      · rfl
      · split <;> rfl

theorem readEEPROM_writeEEPROM_other (mem : Nat → Nat) (i j : Nat) (l : List Nat) (k : Nat)
    (hij : j ≠ i) (hk : k < 8) :
    readEEPROM (writeEEPROM mem (8 * i) l 8) (8 * j) 8 k = readEEPROM mem (8 * j) 8 k := by
  have h1 : ¬ (8 * i ≤ 8 * j + k ∧ 8 * j + k < 8 * i + 8) := by omega
  simp only [readEEPROM, writeEEPROM, hk, if_true, h1, if_false]

theorem validRecord_congr (r1 r2 : Nat → Nat) (h : ∀ k, k < 8 → r1 k = r2 k)
    (hv : validRecord r2) : validRecord r1 := by
  unfold validRecord at *
  rw [h 0 (by omega), h 1 (by omega), h 5 (by omega), h 6 (by omega)]
  exact hv

/-- C9 (persisted-record invariant): every record `setHotkey` writes, whatever
the payload and its length, has keyCount (byte 0) and keyType (byte 1) in 1..3
and a delay `256 * byte5 + byte6` of at most 5000; hence if all 32 slots of the
store hold valid records before `executeCommand` runs (any command, any
payload), they all do afterwards. -/
theorem C9_persisted_record_invariant (s : State) (now stackByte : Nat)
    (hbytes : ∀ i, s.incomingData i < 256) :
    (∀ (data : Nat → Nat) (length : Nat), data 6 < 256 → data 7 < 256 →
      ∀ address bytes,
        Event.eepromWrite address bytes ∈
            (setHotkey s data length stackByte).trace.drop s.trace.length →
        validRecord (fun i => bytes.getD i 0)) ∧
    ((∀ j, j < 32 → validRecord (readEEPROM s.eeprom (8 * j) 8)) →
      ∀ j, j < 32 → validRecord (readEEPROM (executeCommand s now stackByte).eeprom (8 * j) 8)) := by
  refine ⟨?_, ?_⟩
  · intro data length h6 h7 address bytes hmem
    rcases setHotkey_cases s data length stackByte h6 h7 with ⟨hv, heq⟩ | ⟨m, heq⟩
    · rw [heq] at hmem
      simp only [List.drop_left, List.mem_cons, Event.eepromWrite.injEq, List.mem_singleton,
        reduceCtorEq, or_false, List.not_mem_nil] at hmem
      obtain ⟨_, rfl⟩ := hmem
      exact ⟨hv.2.2.1, hv.2.1, hv.2.2.2⟩
    · rw [heq] at hmem
      simp [emit] at hmem
  · intro hinv j hj
    unfold executeCommand
    simp only []
    split
    · rcases setHotkey_cases s (frameData s) (frameLength s) stackByte
        (hbytes _) (hbytes _) with ⟨hv, heq⟩ | ⟨m, heq⟩
      · rw [heq]
        by_cases hji : j = frameData s 0
        · subst hji
          apply validRecord_congr _ _ (fun k hk => readEEPROM_writeEEPROM _ _ _ k hk)
          exact ⟨hv.2.2.1, hv.2.1, hv.2.2.2⟩
        · exact validRecord_congr _ _
            (fun k hk => readEEPROM_writeEEPROM_other _ _ _ _ k hji hk) (hinv j hj)
      · rw [heq]
        exact hinv j hj
    · split
      · rw [runHotkey_eeprom]
        exact hinv j hj
      · split
        · exact hinv j hj
        · exact hinv j hj

/-- Witness for C9: the record written for the SET_HOTKEY payload of the
end-to-end scenario is valid, and after the dispatch of that frame on a store
whose 32 slots all hold the record (1, 1, 0, 0, 0, 0, 0, 0) the overwritten
slot 0 and the untouched slot 5 hold valid records. -/
theorem C9_persisted_record_invariant_witness :
    validRecord (fun i => [2, 1, 4, 5, 0, 0, 100, 0].getD i 0) ∧
    validRecord
      (readEEPROM
        (executeCommand
          { initState (fun a => if a % 8 < 2 then 1 else 0) with
            incomingData := payloadData [1, 8, 0, 1, 2, 4, 5, 0, 0, 100, 121] } 0 0).eeprom
        (8 * 0) 8) ∧
    validRecord
      (readEEPROM
        (executeCommand
          { initState (fun a => if a % 8 < 2 then 1 else 0) with
            incomingData := payloadData [1, 8, 0, 1, 2, 4, 5, 0, 0, 100, 121] } 0 0).eeprom
        (8 * 5) 8) := by
  have h := C9_persisted_record_invariant
    { initState (fun a => if a % 8 < 2 then 1 else 0) with
      incomingData := payloadData [1, 8, 0, 1, 2, 4, 5, 0, 0, 100, 121] } 0 0
    (fun i => getD_lt_of_forall [1, 8, 0, 1, 2, 4, 5, 0, 0, 100, 121] (by decide) i)
  have hinv : ∀ j, j < 32 →
      validRecord (readEEPROM (fun a => if a % 8 < 2 then 1 else 0) (8 * j) 8) := by
    intro j hj
    have h0 : (8 * j) % 8 = 0 := by omega
    have h1 : (8 * j + 1) % 8 = 1 := by omega
    have h5 : (8 * j + 5) % 8 = 5 := by omega
    have h6 : (8 * j + 6) % 8 = 6 := by omega
    simp [validRecord, readEEPROM, h0, h1, h5, h6]
  exact ⟨h.1 (payloadData [0, 1, 2, 4, 5, 0, 0, 100]) 8 (by decide) (by decide) 0
      [2, 1, 4, 5, 0, 0, 100, 0] (by decide),
    h.2 hinv 0 (by decide), h.2 hinv 5 (by decide)⟩

theorem channelOf_none (k : Nat) (hk : ¬ (1 ≤ k ∧ k ≤ 3)) : channelOf k = none := by
  unfold channelOf
  split
  · omega
  · omega
  · omega
  · rfl

/-- C10 as stated fails: with slot 0 holding keyCount 0 and the valid
keyType 1, a RUN_HOTKEY `[0]` dispatched while idle presses nothing but
returns with the task active and prints the start message, not an error. -/
theorem C10_empty_record_starts_task :
    readEEPROM (initState (payloadData [0, 1, 4, 5, 0, 0, 100, 0])).eeprom 0 8 0 = 0 ∧
    (runHotkey (initState (payloadData [0, 1, 4, 5, 0, 0, 100, 0]))
        (payloadData [0]) 1 7).currentTask.active = true ∧
    (runHotkey (initState (payloadData [0, 1, 4, 5, 0, 0, 100, 0]))
        (payloadData [0]) 1 7).trace =
      [Event.eepromRead 0 8, Event.println (Msg.started 0)] := by
  decide

/-- C10 (amended): for a RUN_HOTKEY `[i]` with `i < 32` dispatched while idle,
if the record read from slot `i` has keyCount 0 then `runHotkey` presses
nothing on any channel; when the record's keyType is outside 1..3 the task is
inactive on return and the unknown-key-type message is printed; when the
keyType is in 1..3 the task is active on return and the start message is
printed. -/
theorem C10_run_empty_record (s : State) (data : Nat → Nat) (length now : Nat)
    (hidle : s.currentTask.active = false) (hl : 1 ≤ length) (hi : data 0 < 32)
    (hk : readEEPROM s.eeprom (8 * data 0) 8 0 = 0) :
    (∀ e ∈ (runHotkey s data length now).trace.drop s.trace.length,
        ∀ ch code, e ≠ Event.press ch code) ∧
    (¬ (1 ≤ readEEPROM s.eeprom (8 * data 0) 8 1 ∧ readEEPROM s.eeprom (8 * data 0) 8 1 ≤ 3) →
      (runHotkey s data length now).currentTask.active = false ∧
      (runHotkey s data length now).trace =
        s.trace ++ [Event.eepromRead (8 * data 0) 8, Event.println Msg.unknownKeyType]) ∧
    ((1 ≤ readEEPROM s.eeprom (8 * data 0) 8 1 ∧ readEEPROM s.eeprom (8 * data 0) 8 1 ≤ 3) →
      (runHotkey s data length now).currentTask.active = true ∧
      (runHotkey s data length now).trace =
        s.trace ++ [Event.eepromRead (8 * data 0) 8,
                    Event.println (Msg.started ((data 0 : Nat) : Int))]) := by
  have hrun := runHotkey_idle s data length now hidle hl hi
  rw [hk] at hrun
  by_cases hkt : 1 ≤ readEEPROM s.eeprom (8 * data 0) 8 1 ∧
      readEEPROM s.eeprom (8 * data 0) 8 1 ≤ 3
  · obtain ⟨ch, hch⟩ := channelOf_some _ hkt
    rw [hch] at hrun
    simp only [pressLoop, List.range_zero, List.map_nil, List.append_nil,
      List.append_assoc, List.singleton_append] at hrun
    rw [hrun]
    refine ⟨?_, fun h => absurd hkt h, fun _ => ⟨rfl, rfl⟩⟩
    intro e he ch2 code
    simp only [List.drop_left, List.mem_cons, List.mem_singleton, List.not_mem_nil,
      or_false] at he
    rcases he with rfl | rfl <;> simp
  · rw [channelOf_none _ hkt] at hrun
    simp only [List.append_assoc, List.singleton_append] at hrun
    rw [hrun]
    refine ⟨?_, fun _ => ⟨rfl, rfl⟩, fun h => absurd h hkt⟩
    intro e he ch2 code
    simp only [List.drop_left, List.mem_cons, List.mem_singleton, List.not_mem_nil,
      or_false] at he
    rcases he with rfl | rfl <;> simp

/-- Witness for C10 (amended): slot 0 holding keyCount 0 with keyType 7. -/
theorem C10_run_empty_record_witness :
    (runHotkey (initState (payloadData [0, 7, 4, 5, 0, 0, 100, 0]))
        (payloadData [0]) 1 7).currentTask.active = false ∧
    (runHotkey (initState (payloadData [0, 7, 4, 5, 0, 0, 100, 0]))
        (payloadData [0]) 1 7).trace =
      [Event.eepromRead 0 8, Event.println Msg.unknownKeyType] :=
  (C10_run_empty_record (initState (payloadData [0, 7, 4, 5, 0, 0, 100, 0]))
    (payloadData [0]) 1 7 (by rfl) (by decide) (by decide) (by decide)).2.1 (by decide)

/-- C11 (runner abort on unknown key type): for a RUN_HOTKEY `[i]` with
`i < 32` dispatched while idle, if the record read from slot `i` has a keyType
outside 1..3 (whatever its keyCount), `runHotkey` only reads the slot and
prints the unknown-key-type message: no `press`, no `releaseAll`, and the task
is inactive on return. -/
theorem C11_run_unknown_key_type (s : State) (data : Nat → Nat) (length now : Nat)
    (hidle : s.currentTask.active = false) (hl : 1 ≤ length) (hi : data 0 < 32)
    (hkt : ¬ (1 ≤ readEEPROM s.eeprom (8 * data 0) 8 1 ∧
      readEEPROM s.eeprom (8 * data 0) 8 1 ≤ 3)) :
    (runHotkey s data length now).trace =
      s.trace ++ [Event.eepromRead (8 * data 0) 8, Event.println Msg.unknownKeyType] ∧
    (∀ e ∈ (runHotkey s data length now).trace.drop s.trace.length,
      (∀ ch code, e ≠ Event.press ch code) ∧ ∀ ch, e ≠ Event.releaseAll ch) ∧
    (runHotkey s data length now).currentTask.active = false := by
  have hrun := runHotkey_idle s data length now hidle hl hi
  rw [channelOf_none _ hkt] at hrun
  simp only [List.append_assoc, List.singleton_append] at hrun
  rw [hrun]
  refine ⟨rfl, ?_, rfl⟩
  intro e he
  simp only [List.drop_left, List.mem_cons, List.mem_singleton, List.not_mem_nil,
    or_false] at he
  rcases he with rfl | rfl <;> simp

/-- Witness for C11: slot 0 holding keyType 9 with keyCount 200. -/
theorem C11_run_unknown_key_type_witness :
    (runHotkey (initState (payloadData [200, 9, 4, 5, 6, 0, 100, 0]))
        (payloadData [0]) 1 7).trace =
      [Event.eepromRead 0 8, Event.println Msg.unknownKeyType] ∧
    (runHotkey (initState (payloadData [200, 9, 4, 5, 6, 0, 100, 0]))
        (payloadData [0]) 1 7).currentTask.active = false :=
  ⟨(C11_run_unknown_key_type (initState (payloadData [200, 9, 4, 5, 6, 0, 100, 0]))
      (payloadData [0]) 1 7 (by rfl) (by decide) (by decide) (by decide)).1,
   (C11_run_unknown_key_type (initState (payloadData [200, 9, 4, 5, 6, 0, 100, 0]))
      (payloadData [0]) 1 7 (by rfl) (by decide) (by decide) (by decide)).2.2⟩

theorem runHotkey_rejected (s : State) (data : Nat → Nat) (length now : Nat)
    (h : length = 0 ∨ 32 ≤ data 0) :
    runHotkey s data length now =
      emit s (Event.println
        (if s.currentTask.active = true then Msg.taskActive
         else if length = 0 then Msg.tooShort
         else Msg.indexOutOfRange)) := by
  unfold runHotkey
  by_cases ha : s.currentTask.active = true
  · rw [if_pos ha, if_pos ha]
  · rw [if_neg ha, if_neg ha]
    by_cases hl : length = 0
    · rw [if_pos (by omega), if_pos hl]
    · have h32 : 32 ≤ data 0 := by
        rcases h with h | h
        · exact absurd h hl
        · exact h
      have c0 : (((data 0 : Nat) : Int) < 0 ∨ ((data 0 : Nat) : Int) ≥ ((HOTKEY_COUNT : Nat) : Int)) := by
        simp only [HOTKEY_COUNT]
        omega
      rw [if_neg (by omega), if_neg hl]
      simp only []
      rw [if_pos c0]

/-- C15 (rejected commands change nothing): `executeCommand` with a command byte
outside 1..3 only prints the unknown-command line; with LIST_HOTKEYS it only
sends the not-implemented response; with RUN_HOTKEY of payload length 0 or
index byte 32 or more it only prints one rejection line (already active, too
short, or index out of range, in the order `runHotkey` checks). In each case
the store and `currentTask` are untouched and no HID call is made. -/
theorem C15_rejected_commands (s : State) (now stackByte : Nat) :
    ((frameCommand s ≠ 1 ∧ frameCommand s ≠ 2 ∧ frameCommand s ≠ 3) →
      executeCommand s now stackByte = emit s (Event.println Msg.unknownCommand)) ∧
    (frameCommand s = 3 →
      executeCommand s now stackByte = emit s (Event.response Msg.notImplemented)) ∧
    ((frameCommand s = 2 ∧ (frameLength s = 0 ∨ 32 ≤ frameData s 0)) →
      executeCommand s now stackByte =
        emit s (Event.println
          (if s.currentTask.active = true then Msg.taskActive
           else if frameLength s = 0 then Msg.tooShort
           else Msg.indexOutOfRange))) ∧
    (((frameCommand s ≠ 1 ∧ frameCommand s ≠ 2 ∧ frameCommand s ≠ 3) ∨ frameCommand s = 3 ∨
        (frameCommand s = 2 ∧ (frameLength s = 0 ∨ 32 ≤ frameData s 0))) →
      (executeCommand s now stackByte).eeprom = s.eeprom ∧
      (executeCommand s now stackByte).currentTask = s.currentTask ∧
      ∃ m, (executeCommand s now stackByte).trace = s.trace ++ [Event.println m] ∨
           (executeCommand s now stackByte).trace = s.trace ++ [Event.response m]) := by
  have h1 : (frameCommand s ≠ 1 ∧ frameCommand s ≠ 2 ∧ frameCommand s ≠ 3) →
      executeCommand s now stackByte = emit s (Event.println Msg.unknownCommand) := by
    rintro ⟨a, b, c⟩
    simp [executeCommand, a, b, c, CMD_SET_HOTKEY, CMD_RUN_HOTKEY, CMD_LIST_HOTKEYS]
  have h2 : frameCommand s = 3 →
      executeCommand s now stackByte = emit s (Event.response Msg.notImplemented) := by
    intro a
    simp [executeCommand, a, CMD_SET_HOTKEY, CMD_RUN_HOTKEY, CMD_LIST_HOTKEYS, listHotkeys,
      sendResponse]
  have h3 : (frameCommand s = 2 ∧ (frameLength s = 0 ∨ 32 ≤ frameData s 0)) →
      executeCommand s now stackByte =
        emit s (Event.println
          (if s.currentTask.active = true then Msg.taskActive
           else if frameLength s = 0 then Msg.tooShort
           else Msg.indexOutOfRange)) := by
    rintro ⟨a, b⟩
    rw [executeCommand_run s now stackByte a]
    exact runHotkey_rejected s _ _ now b
  refine ⟨h1, h2, h3, ?_⟩
  rintro (h | h | h)
  · rw [h1 h]
    exact ⟨rfl, rfl, _, Or.inl rfl⟩
  · rw [h2 h]
    exact ⟨rfl, rfl, _, Or.inr rfl⟩
  · rw [h3 h]
    exact ⟨rfl, rfl, _, Or.inl rfl⟩

/-- Witness for C15: command byte 9, LIST_HOTKEYS, and RUN_HOTKEY with index
byte 32, each in the receive buffer of the initial state. -/
theorem C15_rejected_commands_witness :
    executeCommand { initState (fun _ => 0) with incomingData := payloadData [9, 1, 0] } 0 0 =
      emit { initState (fun _ => 0) with incomingData := payloadData [9, 1, 0] }
        (Event.println Msg.unknownCommand) ∧
    executeCommand { initState (fun _ => 0) with incomingData := payloadData [3, 0] } 0 0 =
      emit { initState (fun _ => 0) with incomingData := payloadData [3, 0] }
        (Event.response Msg.notImplemented) ∧
    executeCommand { initState (fun _ => 0) with incomingData := payloadData [2, 1, 32] } 0 0 =
      emit { initState (fun _ => 0) with incomingData := payloadData [2, 1, 32] }
        (Event.println Msg.indexOutOfRange) :=
  ⟨(C15_rejected_commands
      { initState (fun _ => 0) with incomingData := payloadData [9, 1, 0] } 0 0).1 (by decide),
   (C15_rejected_commands
      { initState (fun _ => 0) with incomingData := payloadData [3, 0] } 0 0).2.1 (by decide),
   (C15_rejected_commands
      { initState (fun _ => 0) with incomingData := payloadData [2, 1, 32] } 0 0).2.2.1
      (by decide)⟩

theorem pressLoop_mem (ch : Channel) (codes : List Nat) (k : Nat) (e : Event)
    (h : e ∈ pressLoop ch codes k) : ∃ code, e = Event.press ch code := by
  simp only [pressLoop, List.mem_map] at h
  obtain ⟨i, _, rfl⟩ := h
  exact ⟨_, rfl⟩

theorem runHotkey_idle_events (s : State) (data : Nat → Nat) (length now : Nat)
    (hidle : s.currentTask.active = false) (hl : 1 ≤ length) (hi : data 0 < 32) :
    ∃ rest, (runHotkey s data length now).trace
        = s.trace ++ (Event.eepromRead (8 * data 0) 8 :: rest) ∧
      ∀ e ∈ rest, (∃ ch code, e = Event.press ch code) ∨ (∃ m, e = Event.println m) := by
  have hrun := runHotkey_idle s data length now hidle hl hi
  cases hch : channelOf (readEEPROM s.eeprom (8 * data 0) 8 1) with
  | none =>
    rw [hch] at hrun
    rw [hrun]
    refine ⟨[Event.println Msg.unknownKeyType], by simp, ?_⟩
    intro e he
    simp only [List.mem_singleton] at he
    exact Or.inr ⟨_, he⟩
  | some ch =>
    rw [hch] at hrun
    rw [hrun]
    refine ⟨pressLoop ch
        [readEEPROM s.eeprom (8 * data 0) 8 2, readEEPROM s.eeprom (8 * data 0) 8 3,
         readEEPROM s.eeprom (8 * data 0) 8 4]
        (readEEPROM s.eeprom (8 * data 0) 8 0)
        ++ [Event.println (Msg.started ((data 0 : Nat) : Int))], by simp, ?_⟩
    intro e he
    simp only [List.mem_append, List.mem_singleton] at he
    rcases he with he | he
    · obtain ⟨code, hc⟩ := pressLoop_mem _ _ _ _ he
      exact Or.inl ⟨ch, code, hc⟩
    · exact Or.inr ⟨_, he⟩

/-- C14 (slot isolation): an accepted SET_HOTKEY with index `i` makes one store
write, of 8 bytes at address `8 * i`, inside the first 256 bytes; every byte
outside `[8 * i, 8 * i + 8)` keeps its value, so every other slot `j < 32`
reads back the same record. A RUN_HOTKEY `[i]` that passes the checks makes one
store read, of 8 bytes at address `8 * i`, and no store write. -/
theorem C14_slot_isolation (s : State) (data : Nat → Nat) (length stackByte : Nat)
    (hlen : 7 ≤ length) (h7 : data 7 < 256)
    (h0 : data 0 < 32) (h1 : 1 ≤ data 1 ∧ data 1 ≤ 3) (h2 : 1 ≤ data 2 ∧ data 2 ≤ 3)
    (h3 : 256 * data 6 + data 7 ≤ 5000) :
    (∃ bytes, bytes.length = 8 ∧
      (setHotkey s data length stackByte).trace.drop s.trace.length =
        [Event.eepromWrite (8 * data 0) bytes, Event.response Msg.setOk]) ∧
    8 * data 0 + 8 ≤ 256 ∧
    (∀ a, (a < 8 * data 0 ∨ 8 * data 0 + 8 ≤ a) →
      (setHotkey s data length stackByte).eeprom a = s.eeprom a) ∧
    (∀ j, j < 32 → j ≠ data 0 →
      readEEPROM (setHotkey s data length stackByte).eeprom (8 * j) 8
        = readEEPROM s.eeprom (8 * j) 8) ∧
    (∀ (s2 : State) (data2 : Nat → Nat) (length2 now : Nat),
      s2.currentTask.active = false → 1 ≤ length2 → data2 0 < 32 →
      (runHotkey s2 data2 length2 now).eeprom = s2.eeprom ∧
      Event.eepromRead (8 * data2 0) 8 ∈
        (runHotkey s2 data2 length2 now).trace.drop s2.trace.length ∧
      ∀ e ∈ (runHotkey s2 data2 length2 now).trace.drop s2.trace.length,
        (∀ a l, e ≠ Event.eepromWrite a l) ∧
        (∀ a n, e = Event.eepromRead a n → a = 8 * data2 0 ∧ n = 8)) := by
  have hset := setHotkey_valid s data length stackByte hlen h7 h0 h1 h2 h3
  refine ⟨?_, by omega, ?_, ?_, ?_⟩
  · refine ⟨[data 2, data 1, data 3, data 4, data 5, data 6, data 7, stackByte], rfl, ?_⟩
    rw [hset]
    simp only [List.drop_left]
  · intro a ha
    rw [hset]
    have hn : ¬ (8 * data 0 ≤ a ∧ a < 8 * data 0 + 8) := by omega
    simp only [writeEEPROM, hn, if_false]
  · intro j _ hji
    funext k
    rw [hset]
    by_cases hk : k < 8
    · exact readEEPROM_writeEEPROM_other _ _ _ _ k hji hk
    · simp only [readEEPROM, hk, if_false]
  · intro s2 data2 length2 now hidle hl2 hi2
    obtain ⟨rest, htr, hrest⟩ := runHotkey_idle_events s2 data2 length2 now hidle hl2 hi2
    refine ⟨runHotkey_eeprom s2 data2 length2 now, ?_, ?_⟩
    · rw [htr, List.drop_left]
      exact List.mem_cons_self _ _
    · intro e he
      rw [htr, List.drop_left, List.mem_cons] at he
      rcases he with rfl | he
      · refine ⟨fun a l => by simp, fun a n h => ?_⟩
        injection h with ha hn
        exact ⟨ha.symm, hn.symm⟩
      · rcases hrest e he with ⟨ch, code, rfl⟩ | ⟨m, rfl⟩
        · exact ⟨fun a l => by simp, fun a n h => by simp at h⟩
        · exact ⟨fun a l => by simp, fun a n h => by simp at h⟩

/-- Witness for C14: storing the scenario record in slot 3 of a store filled
with 7 leaves slot 2 as it was and writes 8 bytes at address 24. -/
theorem C14_slot_isolation_witness :
    (∃ bytes, bytes.length = 8 ∧
      (setHotkey (initState (fun _ => 7)) (payloadData [3, 1, 2, 4, 5, 0, 0, 100]) 8 0).trace.drop
          (initState (fun _ => 7)).trace.length =
        [Event.eepromWrite (8 * payloadData [3, 1, 2, 4, 5, 0, 0, 100] 0) bytes,
         Event.response Msg.setOk]) ∧
    readEEPROM
        (setHotkey (initState (fun _ => 7)) (payloadData [3, 1, 2, 4, 5, 0, 0, 100]) 8 0).eeprom
        (8 * 2) 8
      = readEEPROM (initState (fun _ => 7)).eeprom (8 * 2) 8 :=
  ⟨(C14_slot_isolation (initState (fun _ => 7)) (payloadData [3, 1, 2, 4, 5, 0, 0, 100])
      8 0 (by decide) (by decide) (by decide) (by decide) (by decide) (by decide)).1,
   (C14_slot_isolation (initState (fun _ => 7)) (payloadData [3, 1, 2, 4, 5, 0, 0, 100])
      8 0 (by decide) (by decide) (by decide) (by decide) (by decide) (by decide)).2.2.2.1
      2 (by decide) (by decide)⟩

/-- C18 (checksum sensitivity away from the length byte): for a well-formed
frame with a payload of `N <= 125` bytes and one bit flipped in the command
byte, a payload byte or the checksum byte, the decoder fed from cursor 0 does
not complete before byte `N + 3` (after `j < N + 3` bytes the cursor is `j`,
`dataReady` and the trace are as at the start), and at byte `N + 3` it prints
the checksum error, leaves `dataReady` as it was and puts the cursor back
at 0. -/
theorem C18_bit_flip_rejected (s : State) (c : Nat) (p : List Nat) (pos k : Nat)
    (hc : c < 256) (hp : ∀ b ∈ p, b < 256) (hN : p.length ≤ 125) (h0 : s.index = 0)
    (hpos : pos < p.length + 3) (hne : pos ≠ 1) (hk : k < 8) :
    (flipAt (encodeFrame c p) pos k).length = p.length + 3 ∧
    (∀ j, j < p.length + 3 →
        (feed s ((flipAt (encodeFrame c p) pos k).take j)).index = j ∧
        (feed s ((flipAt (encodeFrame c p) pos k).take j)).dataReady = s.dataReady ∧
        (feed s ((flipAt (encodeFrame c p) pos k).take j)).trace = s.trace) ∧
    (feed s (flipAt (encodeFrame c p) pos k)).index = 0 ∧
    (feed s (flipAt (encodeFrame c p) pos k)).dataReady = s.dataReady ∧
    (feed s (flipAt (encodeFrame c p) pos k)).trace
      = s.trace ++ [Event.println Msg.checksumError] := by
  obtain ⟨a, x, hsplit, hal, ha1, hbad⟩ :=
    flipAt_encodeFrame_split c p pos k hc hp hN hpos hne hk
  have hlen : a.length = a.getD 1 0 % 256 + 2 := by
    rw [ha1, hal]
    omega
  rw [hsplit]
  refine ⟨?_, ?_, ?_⟩
  · simp only [List.length_append, List.length_singleton, hal]
  · intro j hj
    rw [feed_take_assembling s a x h0 hlen j (by omega)]
    refine ⟨?_, rfl, rfl⟩
    simp only [assemblingState, List.length_take, hal]
    omega
  · rw [feed_complete s a x h0 hlen]
    simp [completedState, hbad]

/-- Witness for C18: bit 3 of the second payload byte of the SET_HOTKEY frame
of the end-to-end scenario. -/
theorem C18_bit_flip_rejected_witness :
    (feed (initState (fun _ => 0))
        (flipAt (encodeFrame 1 [0, 1, 2, 4, 5, 0, 0, 100]) 3 3)).index = 0 ∧
    (feed (initState (fun _ => 0))
        (flipAt (encodeFrame 1 [0, 1, 2, 4, 5, 0, 0, 100]) 3 3)).dataReady
      = (initState (fun _ => 0)).dataReady ∧
    (feed (initState (fun _ => 0))
        (flipAt (encodeFrame 1 [0, 1, 2, 4, 5, 0, 0, 100]) 3 3)).trace
      = (initState (fun _ => 0)).trace ++ [Event.println Msg.checksumError] :=
  (C18_bit_flip_rejected (initState (fun _ => 0)) 1 [0, 1, 2, 4, 5, 0, 0, 100] 3 3
    (by decide) (by decide) (by decide) rfl (by decide) (by decide) (by decide)).2.2

theorem responseChecksumLoop_eq (message : List Nat) (c : Nat) (hc : c < 256) (n : Nat)
    (hn : n ≤ message.length) :
    responseChecksumLoop message c n = (c + (message.take n).sum) % 256 := by
  induction n with
  | zero =>
    simp only [responseChecksumLoop, List.take_zero, List.sum_nil, Nat.add_zero]
    omega
  | succ n ih =>
    have hlt : n < message.length := by omega
    rw [responseChecksumLoop, ih (by omega), List.sum_take_succ message n hlt,
      List.getD_eq_getElem message 0 hlt]
    omega

theorem sendResponseBytes_eq (message : List Nat) (hlen : message.length ≤ 255) :
    sendResponseBytes message = encodeFrame CMD_RESPONSE message := by
  have hmod : message.length % 256 = message.length := by omega
  have hloop := responseChecksumLoop_eq message ((CMD_RESPONSE + message.length) % 256)
    (Nat.mod_lt _ (by omega)) message.length (Nat.le_refl _)
  rw [List.take_length] at hloop
  simp only [sendResponseBytes, hmod, List.take_length, hloop, encodeFrame]
  have hs : ((CMD_RESPONSE + message.length) % 256 + message.sum) % 256
      = (CMD_RESPONSE + message.length + message.sum) % 256 := by omega
  rw [hs]
  rfl

/-- C13 (response frame format): for a message of at most 255 bytes
`sendResponse` writes `[0x04, msgLen, message bytes, (0x04 + msgLen + sum of
message bytes) mod 256]`, the encoding of a request frame with command 0x04;
hence for `msgLen <= 125` the decoder fed these bytes from cursor 0 raises
`dataReady` at the last byte, prints no checksum error, is back at cursor 0
and holds command 0x04 and the message length. -/
theorem C13_response_frame (message : List Nat) (hlen : message.length ≤ 255) :
    sendResponseBytes message =
      [0x04, message.length] ++ message ++ [(0x04 + message.length + message.sum) % 256] ∧
    sendResponseBytes message = encodeFrame 0x04 message ∧
    (message.length ≤ 125 → ∀ s : State, s.index = 0 →
      (feed s (sendResponseBytes message)).dataReady = true ∧
      (feed s (sendResponseBytes message)).trace = s.trace ∧
      (feed s (sendResponseBytes message)).index = 0 ∧
      frameCommand (feed s (sendResponseBytes message)) = 0x04 ∧
      frameLength (feed s (sendResponseBytes message)) = message.length) := by
  have heq := sendResponseBytes_eq message hlen
  refine ⟨heq, heq, ?_⟩
  intro h125 s h0
  have hal : (4 :: message.length :: message).length = message.length + 2 := by simp
  have hl : (4 :: message.length :: message).length
      = (4 :: message.length :: message).getD 1 0 % 256 + 2 := by
    simp only [List.length_cons, List.getD_cons_succ, List.getD_cons_zero]
    omega
  have hsum : (4 :: message.length :: message).sum % 256
      = (4 + message.length + message.sum) % 256 % 256 := by
    simp only [List.sum_cons]
    omega
  have hfull := feed_complete s (4 :: message.length :: message)
    ((4 + message.length + message.sum) % 256) h0 hl
  simp only [hsum, decide_True] at hfull
  have hf : sendResponseBytes message
      = (4 :: message.length :: message) ++ [(4 + message.length + message.sum) % 256] := heq
  rw [hf, hfull]
  refine ⟨rfl, rfl, rfl, ?_, ?_⟩
  · simp only [frameCommand, completedState, loadBuf, List.length_append, hal,
      List.length_singleton]
    rw [if_pos (by omega), getD_append_left _ _ _ (by rw [hal]; omega)]
    rfl
  · simp only [frameLength, completedState, loadBuf, List.length_append, hal,
      List.length_singleton]
    rw [if_pos (by omega), getD_append_left _ _ _ (by rw [hal]; omega)]
    simp only [List.getD_cons_succ, List.getD_cons_zero]
    omega

/-- Witness for C13: the three-byte message 65, 200, 7. -/
theorem C13_response_frame_witness :
    sendResponseBytes [65, 200, 7] = [4, 3, 65, 200, 7, 23] ∧
    (feed (initState (fun _ => 0)) (sendResponseBytes [65, 200, 7])).dataReady = true ∧
    (feed (initState (fun _ => 0)) (sendResponseBytes [65, 200, 7])).trace
      = (initState (fun _ => 0)).trace :=
  ⟨(C13_response_frame [65, 200, 7] (by decide)).1,
   ((C13_response_frame [65, 200, 7] (by decide)).2.2 (by decide)
      (initState (fun _ => 0)) rfl).1,
   ((C13_response_frame [65, 200, 7] (by decide)).2.2 (by decide)
      (initState (fun _ => 0)) rfl).2.1⟩

/-- C17 fails on the code: the SET_HOTKEY frame `[1, 7, 0,1,1,4,5,6,0, 25]` has
a 7-byte payload, which passes the `length < 7` test of `setHotkey`; the
eighth field `data[7]` is then read at payload position 7, where the frame's
checksum byte 25 lies, so the delay validated and stored is 25 and the record
written to slot 0 ends with the bytes 0, 25. -/
theorem C17_checksum_byte_read_as_delay :
    encodeFrame 1 [0, 1, 1, 4, 5, 6, 0] = [1, 7, 0, 1, 1, 4, 5, 6, 0, 25] ∧
    (feed (initState (fun _ => 0)) [1, 7, 0, 1, 1, 4, 5, 6, 0, 25]).dataReady = true ∧
    frameLength (feed (initState (fun _ => 0)) [1, 7, 0, 1, 1, 4, 5, 6, 0, 25]) = 7 ∧
    frameData (feed (initState (fun _ => 0)) [1, 7, 0, 1, 1, 4, 5, 6, 0, 25]) 7 = 25 ∧
    (executeCommand
        { feed (initState (fun _ => 0)) [1, 7, 0, 1, 1, 4, 5, 6, 0, 25] with
          dataReady := false } 0 0).trace =
      [Event.eepromWrite 0 [1, 1, 4, 5, 6, 0, 25, 0], Event.response Msg.setOk] ∧
    (runTicks (initState (fun _ => 0))
        (byteTicks (fun _ => ⟨none, 0, 0, 0⟩) 0 [1, 7, 0, 1, 1, 4, 5, 6, 0, 25])).trace =
      [Event.eepromWrite 0 [1, 1, 4, 5, 6, 0, 25, 0], Event.response Msg.setOk] := by
  decide

theorem pressLoop_eq_reads (ch : Channel) (codes : List Nat) (k : Nat) :
    pressLoop ch codes k = (pressLoopReads k).map (fun i => Event.press ch (codes.getD i 0)) :=
  rfl

/-- C20 fails on the code: with slot 0 holding keyCount 4 and keyType 1 (a
record `setHotkey` would not write, but the store can hold), a RUN_HOTKEY `[0]`
dispatched while idle runs the keyboard press loop for `i = 0, 1, 2, 3`; the
read `currentTask.keyCodes[3]` is past the 3-element array, and four `press`
calls are made. -/
theorem C20_key_code_read_past_array :
    runHotkeyKeyCodeReads (initState (payloadData [4, 1, 4, 5, 6, 0, 100, 0]))
        (payloadData [0]) 1 = [0, 1, 2, 3] ∧
    ¬ (∀ i ∈ runHotkeyKeyCodeReads (initState (payloadData [4, 1, 4, 5, 6, 0, 100, 0]))
        (payloadData [0]) 1, i < 3) ∧
    (runHotkey (initState (payloadData [4, 1, 4, 5, 6, 0, 100, 0]))
        (payloadData [0]) 1 7).trace.take 4 =
      [Event.eepromRead 0 8, Event.press Channel.keyboard 4, Event.press Channel.keyboard 5,
       Event.press Channel.keyboard 6] ∧
    (runHotkey (initState (payloadData [4, 1, 4, 5, 6, 0, 100, 0]))
        (payloadData [0]) 1 7).trace.length = 6 ∧
    (runHotkey (initState (payloadData [4, 1, 4, 5, 6, 0, 100, 0]))
        (payloadData [0]) 1 7).currentTask.keyCodes.length = 3 := by
  decide

theorem completedState_frame (t : State) (c : Nat) (p : List Nat) (x : Nat) (ok : Bool)
    (hc : c < 256) (hp : ∀ b ∈ p, b < 256) (hN : p.length ≤ 125) :
    frameCommand (completedState t ((c :: p.length :: p) ++ [x]) ok) = c ∧
    frameLength (completedState t ((c :: p.length :: p) ++ [x]) ok) = p.length ∧
    (List.range p.length).map (frameData (completedState t ((c :: p.length :: p) ++ [x]) ok))
      = p := by
  have hl : ((c :: p.length :: p) ++ [x]).length = p.length + 3 := by simp
  refine ⟨?_, ?_, ?_⟩
  · simp only [frameCommand, completedState, loadBuf, hl]
    rw [if_pos (by omega), getD_append_left _ _ _ (by simp only [List.length_cons]; omega)]
    simp only [List.getD_cons_zero]
    omega
  · simp only [frameLength, completedState, loadBuf, hl]
    rw [if_pos (by omega), getD_append_left _ _ _ (by simp only [List.length_cons]; omega)]
    simp only [List.getD_cons_succ, List.getD_cons_zero]
    omega
  · apply List.ext_getElem
    · simp
    · intro i h1 h2
      have hi : i < p.length := h2
      simp only [List.getElem_map, List.getElem_range, frameData, completedState, loadBuf, hl]
      rw [if_pos (by omega)]
      rw [getD_append_left _ _ _ (by simp only [List.length_cons]; omega)]
      simp only [List.getD_cons_succ]
      rw [Nat.mod_eq_of_lt (getD_lt_of_forall p hp i), List.getD_eq_getElem p 0 hi]

theorem wireFrame_hlen (f : WireFrame) (hN : f.payload.length ≤ 125) :
    (f.command :: f.payload.length :: f.payload).length
      = (f.command :: f.payload.length :: f.payload).getD 1 0 % 256 + 2 := by
  simp only [List.length_cons, List.getD_cons_succ, List.getD_cons_zero]
  omega

theorem feed_wireFrame (t : State) (f : WireFrame) (h0 : t.index = 0)
    (hN : f.payload.length ≤ 125) (hx : f.check < 256) :
    feed t f.bytes = completedState t f.bytes (decide f.wellFormed) := by
  have h := feed_complete t (f.command :: f.payload.length :: f.payload) f.check h0
    (wireFrame_hlen f hN)
  have hiff : ((f.command :: f.payload.length :: f.payload).sum % 256 = f.check % 256)
      ↔ f.wellFormed := by
    simp only [List.sum_cons, WireFrame.wellFormed]
    omega
  have hdec : decide ((f.command :: f.payload.length :: f.payload).sum % 256 = f.check % 256)
      = decide f.wellFormed := by
    by_cases hw : f.wellFormed
    · rw [decide_eq_true hw, decide_eq_true (hiff.mpr hw)]
    · rw [decide_eq_false hw, decide_eq_false (fun h => hw (hiff.mp h))]
  rw [hdec] at h
  exact h

theorem feed_stream_index (fs : List WireFrame) :
    ∀ t : State, t.index = 0 →
      (∀ f ∈ fs, f.payload.length ≤ 125 ∧ f.check < 256) →
      (feed t (streamBytes fs)).index = 0 := by
  induction fs with
  | nil =>
    intro t h0 _
    exact h0
  | cons f fs ih =>
    intro t h0 hfs
    obtain ⟨hN, hx⟩ := hfs f (List.mem_cons_self _ _)
    rw [streamBytes, feed_append, feed_wireFrame t f h0 hN hx]
    exact ih _ rfl (fun g hg => hfs g (List.mem_cons_of_mem _ hg))

theorem processSerialData_completes (t : State) (b : Nat) (h2 : 2 ≤ t.index + 1)
    (hc : t.index + 1 = setByte t.incomingData t.index (b % 256) 1 + 3) :
    (processSerialData t b).index = 0 := by
  unfold processSerialData
  simp only []
  rw [if_pos h2, if_pos hc]
  split <;> rfl

/-- C16 (decoder reset and stream decoding): a call of `processSerialData` that
completes a frame leaves the cursor at 0, checksum right or wrong. Hence for
frames sent back to back (payloads of at most 125 bytes, trailing byte right
or wrong) and fed from cursor 0, at each frame: the cursor is 0 when the frame
begins; no byte before its last changes `dataReady` or prints anything; the
last byte puts the cursor back at 0; for a well-formed frame it raises
`dataReady`, prints nothing and leaves command, length and payload of that
frame in the buffer; for a frame with a wrong trailing byte it prints the
checksum error and leaves `dataReady` alone. This holds whatever frames, good
or bad, came before. -/
theorem C16_stream_decoding (s : State) (fs : List WireFrame) (h0 : s.index = 0)
    (hfs : ∀ f ∈ fs, f.command < 256 ∧ (∀ b ∈ f.payload, b < 256) ∧
      f.payload.length ≤ 125 ∧ f.check < 256) :
    (∀ (t : State) (b : Nat), 2 ≤ t.index + 1 →
      t.index + 1 = setByte t.incomingData t.index (b % 256) 1 + 3 →
      (processSerialData t b).index = 0) ∧
    ∀ pre f post, fs = pre ++ f :: post →
      (feed s (streamBytes pre)).index = 0 ∧
      (∀ k, k < f.payload.length + 3 →
        (feed s (streamBytes pre ++ f.bytes.take k)).dataReady
          = (feed s (streamBytes pre)).dataReady ∧
        (feed s (streamBytes pre ++ f.bytes.take k)).trace
          = (feed s (streamBytes pre)).trace) ∧
      (feed s (streamBytes pre ++ f.bytes)).index = 0 ∧
      (f.wellFormed →
        (feed s (streamBytes pre ++ f.bytes)).dataReady = true ∧
        (feed s (streamBytes pre ++ f.bytes)).trace = (feed s (streamBytes pre)).trace ∧
        frameCommand (feed s (streamBytes pre ++ f.bytes)) = f.command ∧
        frameLength (feed s (streamBytes pre ++ f.bytes)) = f.payload.length ∧
        (List.range f.payload.length).map (frameData (feed s (streamBytes pre ++ f.bytes)))
          = f.payload) ∧
      (¬ f.wellFormed →
        (feed s (streamBytes pre ++ f.bytes)).dataReady
          = (feed s (streamBytes pre)).dataReady ∧
        (feed s (streamBytes pre ++ f.bytes)).trace
          = (feed s (streamBytes pre)).trace ++ [Event.println Msg.checksumError]) := by
  refine ⟨processSerialData_completes, ?_⟩
  intro pre f post hsplit
  have hpre : ∀ g ∈ pre, g.payload.length ≤ 125 ∧ g.check < 256 := by
    intro g hg
    have := hfs g (by rw [hsplit]; exact List.mem_append_left _ hg)
    exact ⟨this.2.2.1, this.2.2.2⟩
  obtain ⟨hc, hp, hN, hx⟩ := hfs f (by rw [hsplit]; simp)
  have hidx := feed_stream_index pre s h0 hpre
  have hfull := feed_wireFrame (feed s (streamBytes pre)) f hidx hN hx
  have hframe := completedState_frame (feed s (streamBytes pre)) f.command f.payload f.check
    (decide f.wellFormed) hc hp hN
  refine ⟨hidx, ?_, ?_, ?_, ?_⟩
  · intro k hk
    rw [feed_append, WireFrame.bytes,
      feed_take_assembling _ _ _ hidx (wireFrame_hlen f hN) k
        (by simp only [List.length_cons]; omega)]
    exact ⟨rfl, rfl⟩
  · rw [feed_append, hfull]
    rfl
  · intro hw
    rw [feed_append, hfull]
    refine ⟨?_, ?_, hframe.1, hframe.2.1, hframe.2.2⟩
    · simp [completedState, hw]
    · simp [completedState, hw]
  · intro hw
    rw [feed_append, hfull]
    refine ⟨?_, ?_⟩
    · simp [completedState, hw]
    · simp [completedState, hw]

/-- Witness for C16: the RUN_HOTKEY frame `[2, 1, 0, 3]`, then the same frame
with trailing byte 9, then the RUN_HOTKEY frame `[2, 1, 5, 8]`: the bad frame is
reported at its last byte and the frame after it is decoded. -/
theorem C16_stream_decoding_witness :
    (feed (initState (fun _ => 0))
        (streamBytes [⟨2, [0], 3⟩] ++ (WireFrame.mk 2 [0] 9).bytes)).trace
      = (feed (initState (fun _ => 0)) (streamBytes [⟨2, [0], 3⟩])).trace
          ++ [Event.println Msg.checksumError] ∧
    (feed (initState (fun _ => 0))
        (streamBytes [⟨2, [0], 3⟩, ⟨2, [0], 9⟩] ++ (WireFrame.mk 2 [5] 8).bytes)).dataReady
      = true ∧
    (List.range 1).map (frameData (feed (initState (fun _ => 0))
        (streamBytes [⟨2, [0], 3⟩, ⟨2, [0], 9⟩] ++ (WireFrame.mk 2 [5] 8).bytes))) = [5] :=
  ⟨(((C16_stream_decoding (initState (fun _ => 0))
        [⟨2, [0], 3⟩, ⟨2, [0], 9⟩, ⟨2, [5], 8⟩] rfl (by decide)).2
        [⟨2, [0], 3⟩] ⟨2, [0], 9⟩ [⟨2, [5], 8⟩] rfl).2.2.2.2 (by decide)).2,
   (((C16_stream_decoding (initState (fun _ => 0))
        [⟨2, [0], 3⟩, ⟨2, [0], 9⟩, ⟨2, [5], 8⟩] rfl (by decide)).2
        [⟨2, [0], 3⟩, ⟨2, [0], 9⟩] ⟨2, [5], 8⟩ [] rfl).2.2.2.1 (by decide)).1,
   (((C16_stream_decoding (initState (fun _ => 0))
        [⟨2, [0], 3⟩, ⟨2, [0], 9⟩, ⟨2, [5], 8⟩] rfl (by decide)).2
        [⟨2, [0], 3⟩, ⟨2, [0], 9⟩] ⟨2, [5], 8⟩ [] rfl).2.2.2.1 (by decide)).2.2.2.2⟩

theorem activeTaskPressed_extend (s s2 : State) (post2 : List Event)
    (htask : s2.currentTask = s.currentTask) (htrace : s2.trace = s.trace ++ post2)
    (hpost : ∀ e ∈ post2, isHid e = false) (h : ActiveTaskPressed s) :
    ActiveTaskPressed s2 := by
  intro ha
  rw [htask] at ha
  obtain ⟨ch, pre, presses, post, hch, htr, hlen, hpr, hnh⟩ := h ha
  refine ⟨ch, pre, presses, post ++ post2, ?_, ?_, ?_, hpr, ?_⟩
  · rw [htask]
    exact hch
  · rw [htrace, htr, List.append_assoc]
  · rw [htask]
    exact hlen
  · intro e he
    rcases List.mem_append.mp he with he | he
    · exact hnh e he
    · exact hpost e he

theorem activeTaskPressed_emit (s : State) (e : Event) (he : isHid e = false)
    (h : ActiveTaskPressed s) : ActiveTaskPressed (emit s e) :=
  activeTaskPressed_extend s (emit s e) [e] rfl rfl
    (fun x hx => by rw [List.mem_singleton.mp hx]; exact he) h

theorem activeTaskPressed_processSerialData (s : State) (b : Nat)
    (h : ActiveTaskPressed s) : ActiveTaskPressed (processSerialData s b) := by
  unfold processSerialData
  simp only []
  split
  · split
    · split
      · exact activeTaskPressed_extend s _ [] rfl (by simp) (by simp) h
      · exact activeTaskPressed_extend s _ [Event.println Msg.checksumError] rfl rfl
          (by simp [isHid]) h
    · exact activeTaskPressed_extend s _ [] rfl (by simp) (by simp) h
  · exact activeTaskPressed_extend s _ [] rfl (by simp) (by simp) h

theorem activeTaskPressed_setHotkey (s : State) (data : Nat → Nat) (length pad : Nat)
    (h : ActiveTaskPressed s) : ActiveTaskPressed (setHotkey s data length pad) := by
  unfold setHotkey
  split
  · exact activeTaskPressed_emit s _ rfl h
  · simp only []
    split
    · exact activeTaskPressed_emit s _ rfl h
    · split
      · exact activeTaskPressed_emit s _ rfl h
      · split
        · exact activeTaskPressed_emit s _ rfl h
        · split
          · exact activeTaskPressed_emit s _ rfl h
          · exact activeTaskPressed_extend s _
              [Event.eepromWrite _ _, Event.response Msg.setOk] rfl
              (by simp only [sendResponse, emit, List.append_assoc, List.singleton_append]; rfl)
              (by simp [isHid]) h

theorem activeTaskPressed_runHotkey (s : State) (data : Nat → Nat) (length now : Nat)
    (h : ActiveTaskPressed s) : ActiveTaskPressed (runHotkey s data length now) := by
  by_cases ha : s.currentTask.active = true
  · have hr : runHotkey s data length now = emit s (Event.println Msg.taskActive) := by
      simp [runHotkey, ha]
    rw [hr]
    exact activeTaskPressed_emit s _ rfl h
  · have hidle : s.currentTask.active = false := by
      cases hb : s.currentTask.active
      · rfl
      · exact absurd hb ha
    by_cases hrej : length = 0 ∨ 32 ≤ data 0
    · rw [runHotkey_rejected s data length now hrej]
      exact activeTaskPressed_emit s _ rfl h
    · have hrun := runHotkey_idle s data length now hidle (by omega) (by omega)
      cases hch : channelOf (readEEPROM s.eeprom (8 * data 0) 8 1) with
      | none =>
        rw [hch] at hrun
        rw [hrun]
        intro hact
        exact absurd hact (by simp)
      | some ch =>
        rw [hch] at hrun
        rw [hrun]
        intro _
        exact ⟨ch, s.trace ++ [Event.eepromRead (8 * data 0) 8], _,
          [Event.println (Msg.started ((data 0 : Nat) : Int))], hch, rfl,
          by simp [pressLoop, taskOfRecord], fun e he => pressLoop_mem _ _ _ e he,
          by simp [isHid]⟩

theorem activeTaskPressed_executeCommand (s : State) (now pad : Nat)
    (h : ActiveTaskPressed s) : ActiveTaskPressed (executeCommand s now pad) := by
  unfold executeCommand
  simp only []
  split
  · exact activeTaskPressed_setHotkey s _ _ _ h
  · split
    · exact activeTaskPressed_runHotkey s _ _ _ h
    · split
      · exact activeTaskPressed_emit s _ rfl h
      · exact activeTaskPressed_emit s _ rfl h

theorem pollTask_cases (s : State) (now : Nat) :
    pollTask s now = s ∨ (pollTask s now).currentTask.active = false := by
  unfold pollTask
  split
  · split
    · right
      rfl
    · left
      rfl
  · left
    rfl

theorem activeTaskPressed_pollTask (s : State) (now : Nat)
    (h : ActiveTaskPressed s) : ActiveTaskPressed (pollTask s now) := by
  rcases pollTask_cases s now with h1 | h1
  · rw [h1]
    exact h
  · intro ha
    rw [h1] at ha
    exact absurd ha (by simp)

theorem reachable_activeTaskPressed (mem : Nat → Nat) (s : State) (hr : Reachable mem s) :
    ActiveTaskPressed s := by
  induction hr with
  | init =>
    intro ha
    exact absurd ha (by simp [initState])
  | feedByte s b _ _ ih => exact activeTaskPressed_processSerialData s b ih
  | clearReady s _ ih => exact activeTaskPressed_extend s _ [] rfl (by simp) (by simp) ih
  | dispatch s now pad _ ih => exact activeTaskPressed_executeCommand s now pad ih
  | poll s now _ ih => exact activeTaskPressed_pollTask s now ih

theorem reachable_loop (mem : Nat → Nat) (s : State) (t : Tick) (hr : Reachable mem s)
    (hb : s.index < INCOMING_CAPACITY) : Reachable mem (loop s t) := by
  unfold loop
  simp only []
  apply Reachable.poll
  have h1 : Reachable mem (match t.serial with
      | some incomingByte => processSerialData s incomingByte
      | none => s) := by
    split
    · exact Reachable.feedByte _ _ hr hb
    · exact hr
  split
  · exact Reachable.dispatch _ _ _ (Reachable.clearReady _ h1)
  · exact h1

/-- Invariant of the runs in which every store of `processSerialData` stays
inside `incomingData`: an active task has a keyType in 1..3; the channel it
selects is the one on which `runHotkey` made the `keyCount` calls of `press`
for this task (no HID call was made since), and the task check, once the
delay has elapsed, calls `releaseAll` on that same channel. -/
theorem active_valid_channel_in_bounds (mem : Nat → Nat) (s : State)
    (hr : Reachable mem s) (ha : s.currentTask.active = true) :
    (1 ≤ s.currentTask.keyType ∧ s.currentTask.keyType ≤ 3) ∧
    ∃ ch, channelOf s.currentTask.keyType = some ch ∧
      (∃ pre presses post,
        s.trace = pre ++ presses ++ post ∧
        presses.length = s.currentTask.keyCount ∧
        (∀ e ∈ presses, ∃ code, e = Event.press ch code) ∧
        ∀ e ∈ post, isHid e = false) ∧
      ∀ now, subULong now s.currentTask.startTime ≥ toULong s.currentTask.delayTime →
        pollTask s now =
          { s with currentTask := { s.currentTask with active := false },
                   trace := s.trace ++ [Event.releaseAll ch, Event.println Msg.done] } := by
  obtain ⟨ch, pre, presses, post, hch, htr, hlen, hpr, hpost⟩ :=
    reachable_activeTaskPressed mem s hr ha
  refine ⟨?_, ch, hch, ⟨pre, presses, post, htr, hlen, hpr, hpost⟩,
    fun now hnow => pollTask_release s now ch ha hch hnow⟩
  rcases channelOf_eq_some _ _ hch with ⟨hk, _⟩ | ⟨hk, _⟩ | ⟨hk, _⟩ <;> omega

/-- The invariant applies: the state after the RUN_HOTKEY frame `[2, 1, 0, 3]`
went through four iterations of `loop`, slot 0 holding the scenario record, is
reached with cursors 0 to 3 and has an active task. -/
theorem active_valid_channel_in_bounds_example :
    1 ≤ (runTicks (initState (payloadData [2, 1, 4, 5, 0, 0, 100, 0]))
          (byteTicks (fun _ => ⟨none, 7, 7, 0⟩) 0 [2, 1, 0, 3])).currentTask.keyType ∧
    (runTicks (initState (payloadData [2, 1, 4, 5, 0, 0, 100, 0]))
          (byteTicks (fun _ => ⟨none, 7, 7, 0⟩) 0 [2, 1, 0, 3])).currentTask.keyType ≤ 3 := by
  have h1 := reachable_loop (payloadData [2, 1, 4, 5, 0, 0, 100, 0]) _
    ⟨some 2, 7, 7, 0⟩ Reachable.init (by decide)
  have h2 := reachable_loop _ _ ⟨some 1, 7, 7, 0⟩ h1 (by decide)
  have h3 := reachable_loop _ _ ⟨some 0, 7, 7, 0⟩ h2 (by decide)
  have h4 := reachable_loop _ _ ⟨some 3, 7, 7, 0⟩ h3 (by decide)
  exact (active_valid_channel_in_bounds _ _ h4 (by decide)).1

theorem pollTask_active_cases (s : State) (now : Nat) (ch : Channel)
    (hch : channelOf s.currentTask.keyType = some ch) :
    (pollTask s now = s ∧
      ¬ (s.currentTask.active = true ∧
        subULong now s.currentTask.startTime ≥ toULong s.currentTask.delayTime)) ∨
    (pollTask s now = releasedState s ch ∧ s.currentTask.active = true ∧
      subULong now s.currentTask.startTime ≥ toULong s.currentTask.delayTime) := by
  by_cases ha : s.currentTask.active = true
  · by_cases he : subULong now s.currentTask.startTime ≥ toULong s.currentTask.delayTime
    · right
      exact ⟨pollTask_release s now ch ha hch he, ha, he⟩
    · left
      exact ⟨pollTask_waiting s now he, fun h => he h.2⟩
  · left
    have hidle : s.currentTask.active = false := by
      cases hb : s.currentTask.active
      · rfl
      · exact absurd hb ha
    exact ⟨pollTask_inactive s now hidle, fun h => ha h.1⟩

theorem pollTask_assemblingState (s : State) (a : List Nat) (now : Nat) (ch : Channel)
    (hch : channelOf s.currentTask.keyType = some ch) :
    pollTask (assemblingState s a) now = assemblingState (pollTask s now) a := by
  rcases pollTask_active_cases s now ch hch with ⟨h1, hn⟩ | ⟨h1, ha, he⟩
  · rcases pollTask_active_cases (assemblingState s a) now ch hch with ⟨h2, _⟩ | ⟨_, ha, he⟩
    · rw [h1, h2]
    · exact absurd ⟨ha, he⟩ hn
  · rw [h1, pollTask_release (assemblingState s a) now ch ha hch he]
    rfl

theorem pollTask_fields (s : State) (now : Nat) (ch : Channel)
    (hch : channelOf s.currentTask.keyType = some ch) :
    (pollTask s now).index = s.index ∧ (pollTask s now).dataReady = s.dataReady ∧
    (pollTask s now).eeprom = s.eeprom ∧
    (pollTask s now).currentTask.keyType = s.currentTask.keyType := by
  rcases pollTask_active_cases s now ch hch with ⟨h1, _⟩ | ⟨h1, _, _⟩
  · rw [h1]
    exact ⟨rfl, rfl, rfl, rfl⟩
  · rw [h1]
    exact ⟨rfl, rfl, rfl, rfl⟩

theorem loop_assembling_poll (s : State) (a : List Nat) (b : Nat) (t : Tick) (ch : Channel)
    (h0 : s.index = 0) (hr : s.dataReady = false)
    (hch : channelOf s.currentTask.keyType = some ch)
    (hpart : 2 ≤ (a ++ [b]).length → (a ++ [b]).length < (a ++ [b]).getD 1 0 % 256 + 3)
    (ht : t.serial = some b) :
    loop (assemblingState s a) t = assemblingState (pollTask s t.millisPoll) (a ++ [b]) := by
  have ha : 2 ≤ a.length → a.length < a.getD 1 0 % 256 + 3 := by
    intro h2
    have h3 := hpart (by simp only [List.length_append, List.length_singleton]; omega)
    rw [getD_append_left a [b] 1 (by omega)] at h3
    simp only [List.length_append, List.length_singleton] at h3
    omega
  have hstep : processSerialData (assemblingState s a) b = assemblingState s (a ++ [b]) := by
    rw [← feed_assembling s a h0 ha, ← feed_snoc, feed_assembling s (a ++ [b]) h0 hpart]
  have hr2 : (assemblingState s (a ++ [b])).dataReady = false := hr
  simp only [loop, ht, hstep, hr2, Bool.false_eq_true, if_false]
  exact pollTask_assemblingState s (a ++ [b]) t.millisPoll ch hch

theorem runTicks_assembling_poll (clk : Nat → Tick) (ch : Channel) (bs : List Nat) :
    ∀ (s : State) (a : List Nat) (n : Nat),
      s.index = 0 → s.dataReady = false → channelOf s.currentTask.keyType = some ch →
      (2 ≤ (a ++ bs).length → (a ++ bs).length < (a ++ bs).getD 1 0 % 256 + 3) →
      runTicks (assemblingState s a) (byteTicks clk n bs)
        = assemblingState (pollAll s (pollTimes clk n bs.length)) (a ++ bs) := by
  induction bs with
  | nil =>
    intro s a n _ _ _ _
    simp [runTicks, byteTicks, pollAll, pollTimes]
  | cons b bs ih =>
    intro s a n h0 hr hch hpart
    have hab : 2 ≤ (a ++ [b]).length →
        (a ++ [b]).length < (a ++ [b]).getD 1 0 % 256 + 3 := by
      intro h2
      have h2a : 2 ≤ a.length + 1 := by
        simpa only [List.length_append, List.length_singleton] using h2
      have h3 := hpart (by simp only [List.length_append, List.length_cons]; omega)
      have h4 : (a ++ b :: bs).getD 1 0 = (a ++ [b]).getD 1 0 := by
        have : a ++ b :: bs = (a ++ [b]) ++ bs := by simp
        rw [this, getD_append_left (a ++ [b]) bs 1
          (by simp only [List.length_append, List.length_singleton]; omega)]
      rw [h4] at h3
      simp only [List.length_append, List.length_cons, List.length_nil] at h3 ⊢
      omega
    have hstep := loop_assembling_poll s a b { clk n with serial := some b } ch h0 hr hch hab rfl
    have hcat : a ++ b :: bs = (a ++ [b]) ++ bs := by simp
    obtain ⟨f1, f2, _, f4⟩ := pollTask_fields s (clk n).millisPoll ch hch
    have hrest := ih (pollTask s (clk n).millisPoll) (a ++ [b]) (n + 1)
      (by rw [f1]; exact h0) (by rw [f2]; exact hr) (by rw [f4]; exact hch)
      (by rw [← hcat]; exact hpart)
    rw [hcat]
    simp only [runTicks, byteTicks, List.foldl_cons, hstep, List.length_cons, pollTimes, pollAll]
    exact hrest

theorem runTicks_quiet_poll (clk : Nat → Tick) (ch : Channel) (k : Nat) :
    ∀ (s : State) (n : Nat), s.dataReady = false →
      channelOf s.currentTask.keyType = some ch →
      runTicks s (quietTicks clk n k) = pollAll s (pollTimes clk n k) := by
  induction k with
  | zero =>
    intro s n _ _
    rfl
  | succ k ih =>
    intro s n hr hch
    obtain ⟨_, f2, _, f4⟩ := pollTask_fields s (clk n).millisPoll ch hch
    have h1 : loop s { clk n with serial := none } = pollTask s (clk n).millisPoll :=
      loop_quiet s _ rfl hr
    simp only [runTicks, quietTicks, List.foldl_cons, h1, pollTimes, pollAll]
    exact ih _ (n + 1) (by rw [f2]; exact hr) (by rw [f4]; exact hch)

theorem pollAll_inactive (times : List Nat) :
    ∀ s : State, s.currentTask.active = false → pollAll s times = s := by
  induction times with
  | nil =>
    intro s _
    rfl
  | cons t ts ih =>
    intro s hidle
    simp only [pollAll, List.foldl_cons, pollTask_inactive s t hidle]
    exact ih s hidle

theorem pollAll_release (ch : Channel) (times : List Nat) :
    ∀ s : State, s.currentTask.active = true → channelOf s.currentTask.keyType = some ch →
      (∃ t ∈ times, subULong t s.currentTask.startTime ≥ toULong s.currentTask.delayTime) →
      pollAll s times = releasedState s ch := by
  induction times with
  | nil =>
    intro s _ _ hex
    obtain ⟨t, ht, _⟩ := hex
    simp at ht
  | cons t ts ih =>
    intro s ha hch hex
    by_cases he : subULong t s.currentTask.startTime ≥ toULong s.currentTask.delayTime
    · simp only [pollAll, List.foldl_cons, pollTask_release s t ch ha hch he]
      exact pollAll_inactive ts _ rfl
    · simp only [pollAll, List.foldl_cons, pollTask_waiting s t he]
      apply ih s ha hch
      obtain ⟨t2, ht2, hexp⟩ := hex
      rcases List.mem_cons.mp ht2 with rfl | hmem
      · exact absurd hexp he
      · exact ⟨t2, hmem, hexp⟩

theorem mem_pollTimes (clk : Nat → Tick) (k : Nat) :
    ∀ (n m : Nat), n ≤ m → m < n + k → (clk m).millisPoll ∈ pollTimes clk n k := by
  induction k with
  | zero =>
    intro n m h1 h2
    omega
  | succ k ih =>
    intro n m h1 h2
    by_cases hm : m = n
    · subst hm
      exact List.mem_cons_self _ _
    · exact List.mem_cons_of_mem _ (ih (n + 1) m (by omega) (by omega))

theorem pollAll_append (s : State) (a b : List Nat) :
    pollAll s (a ++ b) = pollAll (pollAll s a) b := by
  simp [pollAll, List.foldl_append]

theorem pollTimes_append (clk : Nat → Tick) (a b : Nat) :
    ∀ n, pollTimes clk n (a + b) = pollTimes clk n a ++ pollTimes clk (n + a) b := by
  induction a with
  | zero =>
    intro n
    simp [pollTimes]
  | succ a ih =>
    intro n
    have h1 : a + 1 + b = (a + b) + 1 := by omega
    have h2 : n + (a + 1) = n + 1 + a := by omega
    rw [h1, pollTimes, pollTimes, ih (n + 1), h2]
    rfl

theorem pollAll_fields (ch : Channel) (times : List Nat) :
    ∀ s : State, channelOf s.currentTask.keyType = some ch →
      (pollAll s times).index = s.index ∧ (pollAll s times).dataReady = s.dataReady ∧
      (pollAll s times).eeprom = s.eeprom ∧
      (pollAll s times).currentTask.keyType = s.currentTask.keyType := by
  induction times with
  | nil =>
    intro s _
    exact ⟨rfl, rfl, rfl, rfl⟩
  | cons t ts ih =>
    intro s hch
    obtain ⟨f1, f2, f3, f4⟩ := pollTask_fields s t ch hch
    obtain ⟨g1, g2, g3, g4⟩ := ih (pollTask s t) (by rw [f4]; exact hch)
    simp only [pollAll, List.foldl_cons] at g1 g2 g3 g4 ⊢
    exact ⟨g1.trans f1, g2.trans f2, g3.trans f3, g4.trans f4⟩

theorem runTicks_frame_after_release (s : State) (clk : Nat → Tick) (n q c : Nat)
    (p : List Nat) (ch : Channel) (hN : p.length ≤ 125)
    (h0 : s.index = 0) (hr : s.dataReady = false)
    (hact : s.currentTask.active = true)
    (hch : channelOf s.currentTask.keyType = some ch)
    (m : Nat) (hm1 : n ≤ m) (hm2 : m < n + q + (p.length + 2))
    (hexp : subULong (clk m).millisPoll s.currentTask.startTime
      ≥ toULong s.currentTask.delayTime) :
    runTicks s (quietTicks clk n q ++ byteTicks clk (n + q) (encodeFrame c p)) =
      pollTask
        (executeCommand
          { completedState (releasedState s ch) (encodeFrame c p) true with
            dataReady := false }
          (clk (n + q + (p.length + 2))).millisRun (clk (n + q + (p.length + 2))).stackByte)
        (clk (n + q + (p.length + 2))).millisPoll := by
  obtain ⟨f1, f2, _, f4⟩ := pollAll_fields ch (pollTimes clk n q) s hch
  have hq := runTicks_quiet_poll clk ch q s n hr hch
  have hal : (c :: p.length :: p).length = p.length + 2 := by simp
  have hlen : (c :: p.length :: p).length = (c :: p.length :: p).getD 1 0 % 256 + 2 := by
    simp only [List.length_cons, List.getD_cons_succ, List.getD_cons_zero]
    omega
  have hsum : (c :: p.length :: p).sum % 256 = (c + p.length + p.sum) % 256 % 256 := by
    simp only [List.sum_cons]
    omega
  have hpart := runTicks_assembling_poll clk ch (c :: p.length :: p)
    (pollAll s (pollTimes clk n q)) []
    (n + q) (by rw [f1]; exact h0) (by rw [f2]; exact hr) (by rw [f4]; exact hch)
    (by simp only [List.nil_append]; omega)
  rw [assemblingState_nil _ (by rw [f1]; exact h0), ← pollAll_append, List.nil_append,
    hal, ← pollTimes_append] at hpart
  have hrel : pollAll s (pollTimes clk n (q + (p.length + 2))) = releasedState s ch :=
    pollAll_release ch _ s hact hch
      ⟨_, mem_pollTimes clk (q + (p.length + 2)) n m hm1 (by omega), hexp⟩
  rw [hrel] at hpart
  rw [runTicks_append, hq, encodeFrame_eq, byteTicks_append, runTicks_append, hpart, hal]
  simp only [byteTicks, runTicks, List.foldl_cons, List.foldl_nil]
  rw [loop_complete (releasedState s ch) (c :: p.length :: p) _ _ h0 hlen hsum rfl]

theorem runHotkey_after_release (s : State) (j : Nat) (ch ch2 : Channel) (now pad : Nat)
    (hj : j < 32) (hch2 : channelOf (readEEPROM s.eeprom (8 * j) 8 1) = some ch2) :
    executeCommand
        { completedState (releasedState s ch) (encodeFrame 2 [j]) true with dataReady := false }
        now pad =
      { completedState (releasedState s ch) (encodeFrame 2 [j]) true with
        dataReady := false,
        currentTask := taskOfRecord (readEEPROM s.eeprom (8 * j) 8) now,
        trace := s.trace ++ [Event.releaseAll ch, Event.println Msg.done,
                             Event.eepromRead (8 * j) 8]
          ++ pressLoop ch2
              [readEEPROM s.eeprom (8 * j) 8 2, readEEPROM s.eeprom (8 * j) 8 3,
               readEEPROM s.eeprom (8 * j) 8 4]
              (readEEPROM s.eeprom (8 * j) 8 0)
          ++ [Event.println (Msg.started ((j : Nat) : Int))] } := by
  have hframe := completedState_frame (releasedState s ch) 2 [j]
    ((2 + [j].length + [j].sum) % 256) true
    (by omega) (by intro b hb; rw [List.mem_singleton.mp hb]; omega)
    (by simp only [List.length_singleton]; omega)
  rw [← encodeFrame_eq] at hframe
  obtain ⟨hc, hl, hd⟩ := hframe
  have hc2 : frameCommand
      { completedState (releasedState s ch) (encodeFrame 2 [j]) true with
        dataReady := false } = 2 := hc
  have hl2 : frameLength
      { completedState (releasedState s ch) (encodeFrame 2 [j]) true with
        dataReady := false } = 1 := hl
  have hd0 : frameData
      { completedState (releasedState s ch) (encodeFrame 2 [j]) true with
        dataReady := false } 0 = j := by
    have h := congrArg (fun l => l.getD 0 0) hd
    simpa using h
  rw [executeCommand_run _ _ _ hc2,
    runHotkey_idle _ _ _ _ rfl (by rw [hl2]) (by rw [hd0]; exact hj), hd0]
  have he : ({ completedState (releasedState s ch) (encodeFrame 2 [j]) true with
      dataReady := false } : State).eeprom = s.eeprom := rfl
  rw [he, hch2]
  simp only [completedState, releasedState, if_true, List.append_assoc, List.cons_append,
    List.nil_append]

/-- C12 as stated fails: with slot 0 holding a valid record (keyboard, codes 4
and 5, delay 100), a first RUN_HOTKEY `[0]` starts the task at clock reading
30; a second RUN_HOTKEY frame is fed at iterations 4 to 7, its last byte at
clock reading 200, when 170 >= 100 has elapsed. The dispatch comes before the
task check in `loop`, the task is still active, and the second request is
rejected with the already-active message; only then is the first task
released. -/
theorem C12_rejected_after_expiry :
    (runTicks (initState (payloadData [2, 1, 4, 5, 0, 0, 100, 0]))
        (byteTicks (fun n => if n < 7 then ⟨none, 10 * n, 10 * n, 0⟩ else ⟨none, 200, 200, 0⟩)
          0 [2, 1, 0, 3])).currentTask =
      { active := true, startTime := 30, delayTime := 100, keyType := 1, keyCount := 2,
        keyCodes := [4, 5, 0] } ∧
    subULong 200 30 ≥ toULong 100 ∧
    (runTicks (initState (payloadData [2, 1, 4, 5, 0, 0, 100, 0]))
        (byteTicks (fun n => if n < 7 then ⟨none, 10 * n, 10 * n, 0⟩ else ⟨none, 200, 200, 0⟩)
          0 ([2, 1, 0, 3] ++ [2, 1, 0, 3]))).trace =
      [Event.eepromRead 0 8, Event.press Channel.keyboard 4, Event.press Channel.keyboard 5,
       Event.println (Msg.started 0), Event.println Msg.taskActive,
       Event.releaseAll Channel.keyboard, Event.println Msg.done] ∧
    (runTicks (initState (payloadData [2, 1, 4, 5, 0, 0, 100, 0]))
        (byteTicks (fun n => if n < 7 then ⟨none, 10 * n, 10 * n, 0⟩ else ⟨none, 200, 200, 0⟩)
          0 ([2, 1, 0, 3] ++ [2, 1, 0, 3]))).currentTask.active = false := by
  decide

/-- C12 (amended): let a task be active (keyType selecting channel `ch`) and
the decoder at cursor 0. If the task check of some iteration `m` runs at a
clock reading with `(now - startTime) mod 2^32 >= delayTime`, then a RUN_HOTKEY
`[j]` frame (`j < 32`, slot `j` holding a valid record) whose last byte is
processed by a later iteration is accepted: the trace shows the release of the
first task, the read of slot `j`, the press loop on the channel of the new
record and the start message, never the already-active message; the new task
is the one built from slot `j`, already released again only if its own delay
has elapsed at the task check of that same iteration. -/
theorem C12_rearm_after_release (s : State) (clk : Nat → Tick) (n q j : Nat) (ch : Channel)
    (h0 : s.index = 0) (hr : s.dataReady = false)
    (hact : s.currentTask.active = true)
    (hch : channelOf s.currentTask.keyType = some ch) (hj : j < 32)
    (hrec : validRecord (readEEPROM s.eeprom (8 * j) 8))
    (m : Nat) (hm1 : n ≤ m) (hm2 : m < n + q + 3)
    (hexp : subULong (clk m).millisPoll s.currentTask.startTime
      ≥ toULong s.currentTask.delayTime) :
    ∃ ch2 rest, channelOf (readEEPROM s.eeprom (8 * j) 8 1) = some ch2 ∧
      (runTicks s (quietTicks clk n q ++ byteTicks clk (n + q) (encodeFrame 2 [j]))).trace =
        s.trace ++ [Event.releaseAll ch, Event.println Msg.done, Event.eepromRead (8 * j) 8]
          ++ pressLoop ch2
              [readEEPROM s.eeprom (8 * j) 8 2, readEEPROM s.eeprom (8 * j) 8 3,
               readEEPROM s.eeprom (8 * j) 8 4]
              (readEEPROM s.eeprom (8 * j) 8 0)
          ++ [Event.println (Msg.started ((j : Nat) : Int))] ++ rest ∧
      Event.println Msg.taskActive ∉
        (runTicks s (quietTicks clk n q ++ byteTicks clk (n + q) (encodeFrame 2 [j]))).trace.drop
          s.trace.length ∧
      ((rest = [] ∧
        (runTicks s (quietTicks clk n q ++ byteTicks clk (n + q) (encodeFrame 2 [j]))).currentTask
          = taskOfRecord (readEEPROM s.eeprom (8 * j) 8) (clk (n + q + 3)).millisRun) ∨
       (rest = [Event.releaseAll ch2, Event.println Msg.done] ∧
        (runTicks s (quietTicks clk n q ++ byteTicks clk (n + q) (encodeFrame 2 [j]))).currentTask
          = { taskOfRecord (readEEPROM s.eeprom (8 * j) 8) (clk (n + q + 3)).millisRun with
              active := false })) := by
  obtain ⟨ch2, hch2⟩ := channelOf_some _ hrec.2.1
  have hrun := runTicks_frame_after_release s clk n q 2 [j] ch
    (by simp only [List.length_singleton]; omega) h0 hr hact hch m hm1 hm2 hexp
  rw [runHotkey_after_release s j ch ch2 _ _ hj hch2] at hrun
  have hn : n + q + ([j].length + 2) = n + q + 3 := rfl
  rw [hn] at hrun
  have hnot : ∀ (rest : List Event), (∀ e ∈ rest, e ≠ Event.println Msg.taskActive) →
      Event.println Msg.taskActive ∉
        (s.trace ++ [Event.releaseAll ch, Event.println Msg.done, Event.eepromRead (8 * j) 8]
          ++ pressLoop ch2
              [readEEPROM s.eeprom (8 * j) 8 2, readEEPROM s.eeprom (8 * j) 8 3,
               readEEPROM s.eeprom (8 * j) 8 4]
              (readEEPROM s.eeprom (8 * j) 8 0)
          ++ [Event.println (Msg.started ((j : Nat) : Int))] ++ rest).drop s.trace.length := by
    intro rest hrest hmem
    rw [List.append_assoc, List.append_assoc, List.append_assoc, List.drop_left] at hmem
    simp only [List.mem_append, List.mem_cons, List.mem_singleton, List.not_mem_nil,
      or_false] at hmem
    rcases hmem with (h | h | h) | h | h | h
    · simp at h
    · simp at h
    · simp at h
    · obtain ⟨code, hc⟩ := pressLoop_mem _ _ _ _ h
      simp at hc
    · simp at h
    · exact hrest _ h rfl
  refine ⟨ch2, ?_⟩
  rcases pollTask_active_cases _ (clk (n + q + 3)).millisPoll ch2
      (show channelOf
        ({ completedState (releasedState s ch) (encodeFrame 2 [j]) true with
            dataReady := false,
            currentTask := taskOfRecord (readEEPROM s.eeprom (8 * j) 8)
              (clk (n + q + 3)).millisRun,
            trace := s.trace ++ [Event.releaseAll ch, Event.println Msg.done,
                                 Event.eepromRead (8 * j) 8]
              ++ pressLoop ch2
                  [readEEPROM s.eeprom (8 * j) 8 2, readEEPROM s.eeprom (8 * j) 8 3,
                   readEEPROM s.eeprom (8 * j) 8 4]
                  (readEEPROM s.eeprom (8 * j) 8 0)
              ++ [Event.println (Msg.started ((j : Nat) : Int))] } : State).currentTask.keyType
          = some ch2 from hch2) with ⟨hp, _⟩ | ⟨hp, _, _⟩
  · rw [hp] at hrun
    refine ⟨[], hch2, ?_, ?_, Or.inl ⟨rfl, ?_⟩⟩
    · rw [hrun, List.append_nil]
    · rw [hrun]
      have := hnot [] (by simp)
      rw [List.append_nil] at this
      exact this
    · rw [hrun]
  · rw [hp] at hrun
    refine ⟨[Event.releaseAll ch2, Event.println Msg.done], hch2, ?_, ?_, Or.inr ⟨rfl, ?_⟩⟩
    · rw [hrun]
      rfl
    · rw [hrun]
      exact hnot _ (by
        intro e he
        simp only [List.mem_cons, List.mem_singleton, List.not_mem_nil, or_false] at he
        rcases he with rfl | rfl <;> simp)
    · rw [hrun]
      rfl

/-- Witness for C12 (amended): clock reading 10 n at iteration n; the first
RUN_HOTKEY `[0]` starts the task at 30 with delay 100, ten quiet iterations
follow (the task check of iteration 13 sees 100 elapsed), and the second
RUN_HOTKEY `[0]` frame is fed at iterations 14 to 17. -/
theorem C12_rearm_after_release_witness :
    Event.println Msg.taskActive ∉
      (runTicks
        (runTicks (initState (payloadData [2, 1, 4, 5, 0, 0, 100, 0]))
          (byteTicks (fun n => ⟨none, 10 * n, 10 * n, 0⟩) 0 [2, 1, 0, 3]))
        (quietTicks (fun n => ⟨none, 10 * n, 10 * n, 0⟩) 4 10
          ++ byteTicks (fun n => ⟨none, 10 * n, 10 * n, 0⟩) (4 + 10) (encodeFrame 2 [0]))).trace.drop
        (runTicks (initState (payloadData [2, 1, 4, 5, 0, 0, 100, 0]))
          (byteTicks (fun n => ⟨none, 10 * n, 10 * n, 0⟩) 0 [2, 1, 0, 3])).trace.length := by
  obtain ⟨_, _, _, _, h, _⟩ := C12_rearm_after_release
    (runTicks (initState (payloadData [2, 1, 4, 5, 0, 0, 100, 0]))
      (byteTicks (fun n => ⟨none, 10 * n, 10 * n, 0⟩) 0 [2, 1, 0, 3]))
    (fun n => ⟨none, 10 * n, 10 * n, 0⟩) 4 10 0 Channel.keyboard
    (by decide) (by decide) (by decide) (by decide) (by decide) (by decide)
    13 (by decide) (by decide) (by decide)
  exact h

end HidKb
